import Mathlib

set_option maxRecDepth 10000

/-!
# Verification of the `peel` container-image layer inspector

A shallow embedding, in Lean 4, of the core of the `peel` repository
(a Rust container-image layer inspector), together with theorems settling
the frozen specification claims.

Conventions of the embedding:

* Rust `u64` values are modelled as `Nat`; all the arithmetic in the
  embedded code stays below `2^64` except where an explicit saturation /
  wrap is modelled (the one place is the `as u64` float cast, modelled
  with explicit saturation).
* Filesystem paths are modelled as lists of components (`List String`);
  Rust's `Path::cmp` compares component-wise, which the list order mirrors.
* Byte buffers whose only use is to be JSON-decoded into a known shape are
  modelled by the inductive `Blob`: each constructor carries the decoded
  denotation, and `Blob.malformed` stands for bytes that fail to decode.
  Gzip transparency of layer bodies (`parse_layer_bytes` detects the
  `1F 8B` magic and decompresses) is invisible at this level: a layer blob
  denotes the entry list of the (possibly decompressed) inner tar.
* Rust `HashMap`s are modelled as association lists with insert-replace
  semantics (`AList.insert`), which matches `HashMap::insert` /
  `HashMap::remove` / `HashMap::get` observationally for every use in the
  sources (the one iteration over a `HashMap` — the tiny-blob sweep of the
  OCI parser — is modelled in insertion order; no settled claim depends on
  that order).
* Fallible Rust functions returning `anyhow::Result` are modelled with
  `Except PeelErr`; the error constructors are named after the failure
  conditions of the source.
-/

namespace Peel

/-! ## Association-list model of `HashMap` -/

/-- Lookup in an association list (first binding wins). -/
def alistGet {β : Type} (m : List (String × β)) (k : String) : Option β :=
  match m with
  | [] => none
  | (k', v) :: rest => if k' = k then some v else alistGet rest k

/-- Insert-replace, modelling `HashMap::insert`. -/
def alistInsert {β : Type} (m : List (String × β)) (k : String) (v : β) :
    List (String × β) :=
  match m with
  | [] => [(k, v)]
  | (k', v') :: rest =>
    if k' = k then (k, v) :: rest else (k', v') :: alistInsert rest k v

/-- Remove a binding and return it, modelling `HashMap::remove`. -/
def alistRemove {β : Type} (m : List (String × β)) (k : String) :
    Option (β × List (String × β)) :=
  match m with
  | [] => none
  | (k', v) :: rest =>
    if k' = k then some (v, rest)
    else match alistRemove rest k with
      | some (v', rest') => some (v', (k', v) :: rest')
      | none => none

/-! ## Data model (`src/inspector/mod.rs`) -/

/-- `FileEntry` from `src/inspector/mod.rs`: a single file inside a layer.
The `path` is relative to the layer root and modelled as its components. -/
structure FileEntry where
  path : List String
  size : Nat
  is_whiteout : Bool
  deriving Repr, DecidableEq

/-- `LayerInfo` from `src/inspector/mod.rs`. -/
structure LayerInfo where
  digest : String
  created_by : Option String
  size : Nat
  files : List FileEntry
  deriving Repr, DecidableEq

/-- `ImageInfo` from `src/inspector/mod.rs`. -/
structure ImageInfo where
  name : String
  tag : Option String
  architecture : Option String
  total_size : Nat
  layers : List LayerInfo
  deriving Repr, DecidableEq

/-! ## Path ordering

Rust sorts file lists with `files.sort_by(|a, b| a.path.cmp(&b.path))`;
`Path::cmp` is the lexicographic order on components, each component
compared byte-lexicographically (which on ASCII is character order).
`pathLeb` is that order as a Boolean relation on component lists. -/

/-- Strict character order (`u8` order on ASCII). -/
def charLtb (a b : Char) : Bool := decide (a.toNat < b.toNat)

/-- Strict lexicographic order on characters of a component. -/
def charListLt : List Char → List Char → Bool
  | _, [] => false
  | [], _ :: _ => true
  | a :: as, b :: bs =>
    if charLtb a b then true else if charLtb b a then false else charListLt as bs

/-- Strict component order (`str` comparison). -/
def strLtb (s t : String) : Bool := charListLt s.data t.data

/-- Lexicographic `≤` on component lists (the order `Path::cmp` induces). -/
def pathLeb : List String → List String → Bool
  | [], _ => true
  | _ :: _, [] => false
  | a :: as, b :: bs =>
    if strLtb a b then true else if strLtb b a then false else pathLeb as bs

/-- The sorting relation on `FileEntry`: compare by `path`. -/
def entryLe (a b : FileEntry) : Prop := pathLeb a.path b.path = true

instance : DecidableRel entryLe := fun a b => by
  unfold entryLe; infer_instance

theorem charLtb_conn {a b : Char} (hab : charLtb a b = false)
    (hba : charLtb b a = false) : a = b := by
  simp only [charLtb, decide_eq_false_iff_not, Nat.not_lt] at hab hba
  have h : a.toNat = b.toNat := Nat.le_antisymm hba hab
  have h2 := congrArg Char.ofNat h
  rwa [Char.ofNat_toNat, Char.ofNat_toNat] at h2

theorem charLtb_asymm {a b : Char} (h : charLtb a b = true) :
    charLtb b a = false := by
  simp only [charLtb, decide_eq_true_eq] at h
  simp only [charLtb, decide_eq_false_iff_not, Nat.not_lt]
  exact Nat.le_of_lt h

theorem charLtb_trans {a b c : Char} (h₁ : charLtb a b = true)
    (h₂ : charLtb b c = true) : charLtb a c = true := by
  simp only [charLtb, decide_eq_true_eq] at h₁ h₂ ⊢
  exact Nat.lt_trans h₁ h₂

theorem charListLt_cons_iff (a b : Char) (as bs : List Char) :
    charListLt (a :: as) (b :: bs) = true ↔
      charLtb a b = true ∨
        (charLtb a b = false ∧ charLtb b a = false ∧ charListLt as bs = true) := by
  rw [charListLt]
  rcases hab : charLtb a b with _ | _ <;> rcases hba : charLtb b a with _ | _ <;> simp

theorem charListLt_conn : ∀ {p q : List Char},
    charListLt p q = false → charListLt q p = false → p = q
  | [], [], _, _ => rfl
  | [], _ :: _, h, _ => by simp [charListLt] at h
  | _ :: _, [], _, h => by simp [charListLt] at h
  | a :: as, b :: bs, h₁, h₂ => by
    rw [charListLt] at h₁ h₂
    rcases hab : charLtb a b with _ | _
    · rcases hba : charLtb b a with _ | _
      · rw [hab, hba, if_neg (by simp), if_neg (by simp)] at h₁
        rw [hba, hab, if_neg (by simp), if_neg (by simp)] at h₂
        rw [charLtb_conn hab hba, charListLt_conn h₁ h₂]
      · rw [hba] at h₂; simp at h₂
    · rw [hab] at h₁; simp at h₁

theorem charListLt_asymm : ∀ {p q : List Char},
    charListLt p q = true → charListLt q p = false
  | _ :: _, [], h => by simp [charListLt] at h
  | [], _ :: _, _ => by simp [charListLt]
  | [], [], h => by simp [charListLt] at h
  | a :: as, b :: bs, h => by
    rw [charListLt_cons_iff] at h
    rw [charListLt]
    rcases h with h | ⟨hab, hba, h⟩
    · rw [charLtb_asymm h, h, if_neg (by simp), if_pos rfl]
    · rw [hba, hab, if_neg (by simp), if_neg (by simp)]
      exact charListLt_asymm h

theorem charListLt_trans : ∀ {p q r : List Char},
    charListLt p q = true → charListLt q r = true → charListLt p r = true
  | _, _ :: _, [], _, h₂ => by simp [charListLt] at h₂
  | _ :: _, [], _, h₁, _ => by simp [charListLt] at h₁
  | [], _ :: _, _ :: _, _, _ => by simp [charListLt]
  | [], [], _ :: _, _, _ => by simp [charListLt]
  | a :: as, b :: bs, c :: cs, h₁, h₂ => by
    rw [charListLt_cons_iff] at h₁ h₂ ⊢
    rcases h₁ with hab | ⟨hab, hba, h₁⟩
    · rcases h₂ with hbc | ⟨hbc, hcb, _⟩
      · exact Or.inl (charLtb_trans hab hbc)
      · rw [charLtb_conn hbc hcb] at hab
        exact Or.inl hab
    · rcases h₂ with hbc | ⟨hbc, hcb, h₂⟩
      · rw [charLtb_conn hab hba]
        exact Or.inl hbc
      · rw [charLtb_conn hab hba]
        exact Or.inr ⟨hbc, hcb, charListLt_trans h₁ h₂⟩

theorem strLtb_conn {a b : String} (hab : strLtb a b = false)
    (hba : strLtb b a = false) : a = b := by
  cases a; cases b
  exact congrArg String.mk (charListLt_conn hab hba)

theorem pathLeb_total : ∀ p q : List String, pathLeb p q = true ∨ pathLeb q p = true
  | [], _ => Or.inl rfl
  | _ :: _, [] => Or.inr rfl
  | a :: as, b :: bs => by
    rcases hab : strLtb a b with _ | _
    · rcases hba : strLtb b a with _ | _
      · rw [strLtb_conn hab hba]
        rcases pathLeb_total as bs with ih | ih
        · left; rw [pathLeb, ih]; simp
        · right; rw [pathLeb, ih]; simp
      · right; rw [pathLeb, hba]; simp
    · left; rw [pathLeb, hab]; simp

theorem pathLeb_cons_iff (a b : String) (as bs : List String) :
    pathLeb (a :: as) (b :: bs) = true ↔
      strLtb a b = true ∨
        (strLtb a b = false ∧ strLtb b a = false ∧ pathLeb as bs = true) := by
  rw [pathLeb]
  rcases hab : strLtb a b with _ | _ <;> rcases hba : strLtb b a with _ | _ <;> simp

theorem pathLeb_trans : ∀ p q r : List String,
    pathLeb p q = true → pathLeb q r = true → pathLeb p r = true
  | [], _, _, _, _ => rfl
  | _ :: _, [], _, h, _ => by simp [pathLeb] at h
  | _ :: _, _ :: _, [], _, h => by simp [pathLeb] at h
  | a :: as, b :: bs, c :: cs, h₁, h₂ => by
    rw [pathLeb_cons_iff] at h₁ h₂ ⊢
    rcases h₁ with hab | ⟨hab, hba, h₁⟩
    · rcases h₂ with hbc | ⟨hbc, hcb, _⟩
      · exact Or.inl (charListLt_trans hab hbc)
      · have h := strLtb_conn hbc hcb
        subst h
        exact Or.inl hab
    · have h := strLtb_conn hab hba
      subst h
      rcases h₂ with hbc | ⟨hbc, hcb, h₂⟩
      · exact Or.inl hbc
      · exact Or.inr ⟨hbc, hcb, pathLeb_trans as bs cs h₁ h₂⟩

instance : IsTotal FileEntry entryLe := ⟨fun a b => pathLeb_total a.path b.path⟩

instance : IsTrans FileEntry entryLe :=
  ⟨fun _ _ _ h₁ h₂ => pathLeb_trans _ _ _ h₁ h₂⟩

/-- The sort at the end of `parse_inner_tar` / `Overlay2Inspector::list_files`
(`sort_by(|a, b| a.path.cmp(&b.path))`, a stable sort by path). -/
def sortByPath (files : List FileEntry) : List FileEntry :=
  List.insertionSort entryLe files

theorem sortByPath_sorted (files : List FileEntry) :
    List.Sorted entryLe (sortByPath files) :=
  List.sorted_insertionSort entryLe files

theorem sortByPath_perm (files : List FileEntry) :
    List.Perm (sortByPath files) files :=
  List.perm_insertionSort entryLe files

/-! ## String helpers

Character-list implementations (the corresponding core `String` functions
walk UTF-8 byte positions by well-founded recursion, which the kernel
cannot evaluate; these structural versions can, and agree on ASCII). -/

/-- `str::starts_with`. -/
def strStartsWith (s pre : String) : Bool := pre.data.isPrefixOf s.data

/-- `str::ends_with`. -/
def strEndsWith (s suf : String) : Bool := suf.data.isSuffixOf s.data

/-- `str::trim` (ASCII whitespace; Rust trims Unicode `White_Space`, which
agrees on every input this program meets). -/
def strTrim (s : String) : String :=
  String.mk (((s.data.dropWhile Char.isWhitespace).reverse.dropWhile
    Char.isWhitespace).reverse)

/-- `str::strip_prefix`. -/
def stripPrefixOpt (s pre : String) : Option String :=
  if strStartsWith s pre then some (String.mk (s.data.drop pre.data.length))
  else none

/-- Index of the last occurrence of `c`. -/
def lastIdxOf (c : Char) : List Char → Option Nat
  | [] => none
  | x :: xs =>
    match lastIdxOf c xs with
    | some i => some (i + 1)
    | none => if x = c then some 0 else none

/-- `str::rsplit_once`: split at the last occurrence of `c`. -/
def rsplitOnce (s : String) (c : Char) : Option (String × String) :=
  match lastIdxOf c s.data with
  | some i => some (String.mk (s.data.take i), String.mk (s.data.drop (i + 1)))
  | none => none

/-- The digit-run value of a character list. -/
def digitsValGo (acc : Nat) : List Char → Option Nat
  | [] => some acc
  | c :: cs => if c.isDigit then digitsValGo (acc * 10 + (c.toNat - 48)) cs else none

/-- `str::parse::<u64>()`: optional leading `+`, one or more digits, and the
value must fit in 64 bits. -/
def parseU64 (s : String) : Option Nat :=
  let cs := if strStartsWith s "+" then s.data.drop 1 else s.data
  if cs = [] then none
  else match digitsValGo 0 cs with
    | some v => if v < 18446744073709551616 then some v else none
    | none => none

/-- `parse_image_ref` (`src/inspector/archive.rs:473-483`; `oci.rs:662-672`
is a verbatim copy): split `name:tag` at the last colon, treating a right
side containing `/` as a registry port (default tag `"latest"`). -/
def parse_image_ref (image : String) : String × String :=
  match rsplitOnce image ':' with
  | some (n, t) => if t.data.contains '/' then (image, "latest") else (n, t)
  | none => (image, "latest")

/-! ## Layer-body parsing (`parse_inner_tar`, `src/inspector/archive.rs:432-468`;
`src/inspector/oci.rs:603-639` is a verbatim copy, embedded once here) -/

/-- One entry of the inner (layer) tar as the Rust `tar` crate exposes it.
`valid` models whether `entry_result` and `entry.path()` succeeded; the
source skips (`continue`) entries where either fails. -/
structure InnerTarEntry where
  valid : Bool
  isDir : Bool
  path : List String
  size : Nat
  deriving Repr, DecidableEq

/-- The basename of a component path: `Path::file_name()` mapped to a string,
`unwrap_or_default()` (i.e. `""` when absent). -/
def basenameOf (p : List String) : String := (p.getLast?).getD ""

/-- The collection loop of `parse_inner_tar`: skip invalid entries and
directories, classify whiteouts, force whiteout sizes to 0. -/
def collectInnerFiles : List InnerTarEntry → List FileEntry
  | [] => []
  | e :: es =>
    if e.valid = false ∨ e.isDir = true then collectInnerFiles es
    else
      let name := basenameOf e.path
      let wo := strStartsWith name ".wh."
      { path := e.path, size := if wo then 0 else e.size, is_whiteout := wo }
        :: collectInnerFiles es

/-- `parse_inner_tar` (`src/inspector/archive.rs:432`): collect the file
entries, then sort them by path. -/
def parse_inner_tar (entries : List InnerTarEntry) : List FileEntry :=
  sortByPath (collectInnerFiles entries)

/-- Every file the collection loop emits is whiteout-classified by its
basename, with whiteout sizes forced to 0. -/
theorem collectInnerFiles_whiteout (entries : List InnerTarEntry) :
    ∀ f ∈ collectInnerFiles entries,
      f.is_whiteout = strStartsWith (basenameOf f.path) ".wh." ∧
        (f.is_whiteout = true → f.size = 0) := by
  induction entries with
  | nil => intro f hf; cases hf
  | cons e es ih =>
    intro f hf
    rw [collectInnerFiles] at hf
    by_cases hskip : e.valid = false ∨ e.isDir = true
    · rw [if_pos hskip] at hf; exact ih f hf
    · rw [if_neg hskip] at hf
      rcases List.mem_cons.mp hf with rfl | hf
      · refine ⟨rfl, fun hw => ?_⟩
        simp only at hw ⊢
        rw [hw, if_pos rfl]
      · exact ih f hf

/-! ## Overlay2 directory walk (`walk_layer_dir`, `src/inspector/overlay2.rs:138-159`) -/

mutual
/-- A node of the layer `diff/` directory tree. -/
inductive FsNode where
  | file (name : String) (size : Nat) : FsNode
  | dir (name : String) (children : FsForest) : FsNode

/-- The ordered children of a directory (order models `read_dir` order). -/
inductive FsForest where
  | nil : FsForest
  | cons (hd : FsNode) (tl : FsForest) : FsForest
end

mutual
/-- `walk_layer_dir` on one directory entry: directories are recursed into
(and not themselves reported); files are reported with their path relative
to the diff root, whiteout-classified by basename, size forced to 0 for
whiteouts (otherwise `metadata.len()`). -/
def walkNode (pre : List String) : FsNode → List FileEntry
  | .file n sz =>
    let wo := strStartsWith n ".wh."
    [ { path := pre ++ [n], size := if wo then 0 else sz, is_whiteout := wo } ]
  | .dir n cs => walkForest (pre ++ [n]) cs

/-- `walk_layer_dir` over the entries of one directory, in order. -/
def walkForest (pre : List String) : FsForest → List FileEntry
  | .nil => []
  | .cons hd tl => walkNode pre hd ++ walkForest pre tl
end

mutual
theorem walkNode_whiteout (pre : List String) (n : FsNode) :
    ∀ f ∈ walkNode pre n,
      f.is_whiteout = strStartsWith (basenameOf f.path) ".wh." ∧
        (f.is_whiteout = true → f.size = 0) := by
  cases n with
  | file nm sz =>
    intro f hf
    rcases List.mem_singleton.mp hf with rfl
    constructor
    · simp [basenameOf]
    · intro hw
      simp only at hw ⊢
      rw [hw, if_pos rfl]
  | dir nm cs => exact walkForest_whiteout (pre ++ [nm]) cs

theorem walkForest_whiteout (pre : List String) (cs : FsForest) :
    ∀ f ∈ walkForest pre cs,
      f.is_whiteout = strStartsWith (basenameOf f.path) ".wh." ∧
        (f.is_whiteout = true → f.size = 0) := by
  cases cs with
  | nil => intro f hf; cases hf
  | cons hd tl =>
    intro f hf
    rcases List.mem_append.mp hf with h | h
    · exact walkNode_whiteout pre hd f h
    · exact walkForest_whiteout pre tl f h
end

/-! ## SHA-256

`Overlay2Inspector::compute_chain_ids` hashes with `sha2::Sha256`.  The
algorithm (FIPS 180-4) is embedded here over `Nat`, with 32-bit words kept
reduced modulo `2^32`.  Bytes are `Nat` values below 256. -/

/-- Reduce to a 32-bit word. -/
def w32 (x : Nat) : Nat := x % 4294967296

/-- Right-rotate a 32-bit word by `n` (for `0 < n < 32`). -/
def rotr (n x : Nat) : Nat := w32 ((x >>> n) ||| (x <<< (32 - n)))

def bigSigma0 (x : Nat) : Nat := (rotr 2 x) ^^^ (rotr 13 x) ^^^ (rotr 22 x)
def bigSigma1 (x : Nat) : Nat := (rotr 6 x) ^^^ (rotr 11 x) ^^^ (rotr 25 x)
def smallSigma0 (x : Nat) : Nat := (rotr 7 x) ^^^ (rotr 18 x) ^^^ (x >>> 3)
def smallSigma1 (x : Nat) : Nat := (rotr 17 x) ^^^ (rotr 19 x) ^^^ (x >>> 10)
def chFn (x y z : Nat) : Nat := (x &&& y) ^^^ ((x ^^^ 4294967295) &&& z)
def majFn (x y z : Nat) : Nat := (x &&& y) ^^^ (x &&& z) ^^^ (y &&& z)

/-- The 64 SHA-256 round constants of FIPS 180-4 §4.2.2 (`K₀ = 0x428a2f98`
and so on), written in decimal. -/
def sha256K : List Nat :=
  [1116352408, 1899447441, 3049323471, 3921009573, 961987163,
   1508970993, 2453635748, 2870763221, 3624381080, 310598401,
   607225278, 1426881987, 1925078388, 2162078206, 2614888103,
   3248222580, 3835390401, 4022224774, 264347078, 604807628,
   770255983, 1249150122, 1555081692, 1996064986, 2554220882,
   2821834349, 2952996808, 3210313671, 3336571891, 3584528711,
   113926993, 338241895, 666307205, 773529912, 1294757372,
   1396182291, 1695183700, 1986661051, 2177026350, 2456956037,
   2730485921, 2820302411, 3259730800, 3345764771, 3516065817,
   3600352804, 4094571909, 275423344, 430227734, 506948616,
   659060556, 883997877, 958139571, 1322822218, 1537002063,
   1747873779, 1955562222, 2024104815, 2227730452, 2361852424,
   2428436474, 2756734187, 3204031479, 3329325298]

/-- Big-endian bytes of a 64-bit quantity. -/
def be64 (n : Nat) : List Nat :=
  [ (n >>> 56) % 256, (n >>> 48) % 256, (n >>> 40) % 256, (n >>> 32) % 256,
    (n >>> 24) % 256, (n >>> 16) % 256, (n >>> 8) % 256, n % 256 ]

/-- SHA-256 padding: `0x80`, zeros to 56 mod 64, then the bit length. -/
def sha256Pad (msg : List Nat) : List Nat :=
  let L := msg.length
  let z := (119 - (L % 64)) % 64
  msg ++ (128 :: List.replicate z 0) ++ be64 (8 * L)

/-- Pack big-endian bytes into 32-bit words, four at a time. -/
def bytesToWords : List Nat → List Nat
  | b0 :: b1 :: b2 :: b3 :: rest =>
    (((b0 * 256 + b1) * 256 + b2) * 256 + b3) :: bytesToWords rest
  | _ => []

/-- The next word of the message schedule, from the last 16 words of `w`. -/
def scheduleNext (w : List Nat) : Nat :=
  let len := w.length
  w32 (smallSigma1 (w.getD (len - 2) 0) + w.getD (len - 7) 0 +
       smallSigma0 (w.getD (len - 15) 0) + w.getD (len - 16) 0)

/-- Extend the 16-word schedule by `n` further words. -/
def scheduleExtend (w : List Nat) : Nat → List Nat
  | 0 => w
  | n + 1 => scheduleExtend (w ++ [scheduleNext w]) n

/-- The eight working variables of the compression function. -/
structure Sha256State where
  a : Nat
  b : Nat
  c : Nat
  d : Nat
  e : Nat
  f : Nat
  g : Nat
  h : Nat

/-- One compression round. -/
def sha256Round (st : Sha256State) (k w : Nat) : Sha256State :=
  let t1 := w32 (st.h + bigSigma1 st.e + chFn st.e st.f st.g + k + w)
  let t2 := w32 (bigSigma0 st.a + majFn st.a st.b st.c)
  { a := w32 (t1 + t2), b := st.a, c := st.b, d := st.c,
    e := w32 (st.d + t1), f := st.e, g := st.f, h := st.g }

/-- Run the 64 rounds over the schedule and round constants. -/
def sha256Rounds : List Nat → List Nat → Sha256State → Sha256State
  | k :: ks, w :: ws, st => sha256Rounds ks ws (sha256Round st k w)
  | _, _, st => st

/-- Process the padded words, one 16-word block at a time. -/
def sha256Blocks : List Nat → Sha256State → Sha256State
  | w0 :: w1 :: w2 :: w3 :: w4 :: w5 :: w6 :: w7 ::
    w8 :: w9 :: w10 :: w11 :: w12 :: w13 :: w14 :: w15 :: rest, st =>
    let sched := scheduleExtend
      [w0, w1, w2, w3, w4, w5, w6, w7, w8, w9, w10, w11, w12, w13, w14, w15] 48
    let r := sha256Rounds sha256K sched st
    sha256Blocks rest
      { a := w32 (st.a + r.a), b := w32 (st.b + r.b), c := w32 (st.c + r.c),
        d := w32 (st.d + r.d), e := w32 (st.e + r.e), f := w32 (st.f + r.f),
        g := w32 (st.g + r.g), h := w32 (st.h + r.h) }
  | _, st => st

/-- Big-endian bytes of one 32-bit word. -/
def wordBytes (n : Nat) : List Nat :=
  [ (n >>> 24) % 256, (n >>> 16) % 256, (n >>> 8) % 256, n % 256 ]

/-- SHA-256 of a byte sequence, as 32 digest bytes. -/
def sha256 (msg : List Nat) : List Nat :=
  let st := sha256Blocks (bytesToWords (sha256Pad msg))
    { a := 1779033703, b := 3144134277, c := 1013904242, d := 2773480762,
      e := 1359893119, f := 2600822924, g := 528734635, h := 1541459225 }
  wordBytes st.a ++ wordBytes st.b ++ wordBytes st.c ++ wordBytes st.d ++
    wordBytes st.e ++ wordBytes st.f ++ wordBytes st.g ++ wordBytes st.h

/-- A lowercase hexadecimal digit. -/
def hexDigit (n : Nat) : Char :=
  Char.ofNat (if n < 10 then 48 + n else 87 + n)

/-- Lowercase hex of a byte list (`format!("{hash:x}")` on a digest). -/
def toHexString (bs : List Nat) : String :=
  String.mk (bs.flatMap (fun b => [hexDigit (b / 16), hexDigit (b % 16)]))

/-- The bytes of a string.  Every string hashed by this program is ASCII
(digest literals and single spaces), where code points coincide with UTF-8
bytes. -/
def strBytes (s : String) : List Nat := s.data.map Char.toNat

/-- FIPS 180-4 test vector: the embedded SHA-256 digests `"abc"` correctly. -/
theorem sha256_vector_abc :
    toHexString (sha256 (strBytes "abc")) =
      "ba7816bf8f01cfea414140de5dae2223b00361a396177a9cb410ff61f20015ad" := by
  rfl

/-- FIPS 180-4 test vector: the embedded SHA-256 digests `""` correctly. -/
theorem sha256_vector_empty :
    toHexString (sha256 []) =
      "e3b0c44298fc1c149afbf4c8996fb92427ae41e4649b934ca495991b7852b855" := by
  rfl

/-! ## Chain IDs (`Overlay2Inspector::compute_chain_ids`,
`src/inspector/overlay2.rs:100-112`) -/

/-- One chain step: `format!("sha256:{hash:x}")` of
`sha256(chain[i-1] ++ " " ++ diff[i])`. -/
def chainStep (prev diff : String) : String :=
  "sha256:" ++ toHexString (sha256 (strBytes (prev ++ " " ++ diff)))

/-- The loop of `compute_chain_ids` after the seed element. -/
def chainGo (prev : String) : List String → List String
  | [] => []
  | d :: ds => chainStep prev d :: chainGo (chainStep prev d) ds

/-- `compute_chain_ids`: `chain[0] = diff[0]`,
`chain[i] = sha256(chain[i-1] + " " + diff[i])`. -/
def compute_chain_ids : List String → List String
  | [] => []
  | d :: ds => d :: chainGo d ds

theorem chainGo_length (prev : String) (ds : List String) :
    (chainGo prev ds).length = ds.length := by
  induction ds generalizing prev with
  | nil => rfl
  | cons d ds ih => simp [chainGo, ih]

theorem compute_chain_ids_length (ds : List String) :
    (compute_chain_ids ds).length = ds.length := by
  cases ds with
  | nil => rfl
  | cons d ds => simp [compute_chain_ids, chainGo_length]

theorem chainGo_getElem (prev : String) (ds : List String) (i : Nat)
    (h : i < ds.length) :
    (chainGo prev ds)[i]? =
      some (chainStep (((prev :: chainGo prev ds)[i]?).getD "")
        ((ds[i]?).getD "") ) := by
  induction ds generalizing prev i with
  | nil => cases h
  | cons d ds ih =>
    cases i with
    | zero => simp [chainGo]
    | succ i =>
      have h' : i < ds.length := Nat.lt_of_succ_lt_succ h
      simpa [chainGo] using ih (chainStep prev d) i h'

/-! ## JSON shapes and the blob model

The serde structs shared by the parsers.  A `Blob` models an undecoded
byte buffer by its decoded denotation; `Blob.malformed` stands for bytes
on which the relevant `serde_json`/tar decoding fails. -/

/-- `HistoryEntry` (`src/inspector/archive.rs:67-72` and the identical
structs in `overlay2.rs` / `oci.rs`); `empty_layer` defaults to `false`. -/
structure HistoryEntry where
  created_by : Option String
  empty_layer : Bool
  deriving Repr, DecidableEq

/-- `Rootfs` / `OciRootFS`. -/
structure Rootfs where
  diff_ids : List String
  deriving Repr, DecidableEq

/-- `ImageConfig` (`src/inspector/archive.rs:54-60`; `overlay2.rs` and
`oci.rs` declare byte-identical copies). -/
structure ImageConfig where
  architecture : Option String
  rootfs : Rootfs
  history : List HistoryEntry
  deriving Repr, DecidableEq

/-- `DockerManifestEntry` (`src/inspector/archive.rs:22-30`);
`RepoTags` defaults to `[]`. -/
structure DockerManifestEntry where
  config : String
  layers : List String
  repo_tags : List String
  deriving Repr, DecidableEq

/-- `OciDescriptor`; `size` defaults to `0` when absent. -/
structure OciDescriptor where
  digest : String
  size : Nat
  deriving Repr, DecidableEq

/-- `OciIndex`. -/
structure OciIndex where
  manifests : List OciDescriptor
  deriving Repr, DecidableEq

/-- `OciManifest`. -/
structure OciManifest where
  config : OciDescriptor
  layers : List OciDescriptor
  deriving Repr, DecidableEq

/-- The denotation of an undecoded byte buffer. -/
inductive Blob where
  | dockerManifest (entries : List DockerManifestEntry)
  | imageConfig (cfg : ImageConfig)
  | ociIndex (idx : OciIndex)
  | ociManifest (m : OciManifest)
  | layerTar (entries : List InnerTarEntry)
  | malformed
  deriving Repr, DecidableEq

/-- The failure conditions of the embedded fallible functions. -/
inductive PeelErr where
  | unknownArchiveFormat
  | manifestParseFailed
  | manifestNotFound
  | emptyManifest
  | layerParseFailed (path : String)
  | configNotFound (name : String)
  | configParseFailed
  | indexNotFound
  | indexParseFailed
  | noManifests
  | manifestBlobNotFound (digest : String)
  | ociManifestParseFailed
  | configBlobNotFound (digest : String)
  | ociConfigParseFailed
  | repositoriesReadFailed
  | imageNotFound (name : String)
  | tagNotFound (tag : String)
  | imageConfigReadFailed
  | imageConfigParseFailed
  | cacheIdReadFailed (chain : String)
  | layerSizeReadFailed (chain : String)
  | layerSizeParseFailed
  | layerDirNotFound (cacheId : String)
  | inspectNotCalled
  | layerNotFound (digest : String)
  | noRuntimeDetected
  | alreadyEscalated
  | cannotReadStorageNoSudo
  | runtimeIndexOutOfBounds
  deriving Repr, DecidableEq

/-! ## Overlay2 backend (`src/inspector/overlay2.rs`) -/

/-- The overlay2 on-disk state the backend consumes (spec §6 layout).
Association keys are the path components the source computes; a missing
key models an unreadable/absent file. -/
structure Overlay2Storage where
  /-- `image/overlay2/repositories.json`, decoded; `none` models a file
  that cannot be read or parsed. -/
  repositories : Option (List (String × List (String × String)))
  /-- `image/overlay2/imagedb/content/sha256/<hex>` contents. -/
  imageConfigs : List (String × Blob)
  /-- `image/overlay2/layerdb/sha256/<hex>/size` raw contents. -/
  layerSizes : List (String × String)
  /-- `image/overlay2/layerdb/sha256/<hex>/cache-id` raw contents. -/
  cacheIds : List (String × String)
  /-- `overlay2/<cache-id>/diff` directory trees. -/
  diffDirs : List (String × FsForest)

/-- `Overlay2Inspector::resolve_image` (`overlay2.rs:50-84`). -/
def resolve_image (st : Overlay2Storage) (image : String) :
    Except PeelErr (String × String × String) :=
  let nt :=
    match rsplitOnce image ':' with
    | some (n, t) => if t.data.contains '/' then (image, "latest") else (n, t)
    | none => (image, "latest")
  match st.repositories with
  | none => .error .repositoriesReadFailed
  | some repos =>
    match alistGet repos nt.1 with
    | none => .error (.imageNotFound nt.1)
    | some tags =>
      match alistGet tags (nt.1 ++ ":" ++ nt.2) with
      | none => .error (.tagNotFound nt.2)
      | some config_digest =>
        .ok (nt.1, nt.2, (stripPrefixOpt config_digest "sha256:").getD config_digest)

/-- `Overlay2Inspector::read_image_config` (`overlay2.rs:86-94`). -/
def read_image_config (st : Overlay2Storage) (digest_hex : String) :
    Except PeelErr ImageConfig :=
  match alistGet st.imageConfigs digest_hex with
  | none => .error .imageConfigReadFailed
  | some (.imageConfig cfg) => .ok cfg
  | some _ => .error .imageConfigParseFailed

/-- `Overlay2Inspector::get_cache_id` (`overlay2.rs:114-124`). -/
def get_cache_id (st : Overlay2Storage) (chain_id : String) :
    Except PeelErr String :=
  let hex := (stripPrefixOpt chain_id "sha256:").getD chain_id
  match alistGet st.cacheIds hex with
  | none => .error (.cacheIdReadFailed chain_id)
  | some s => .ok (strTrim s)

/-- `Overlay2Inspector::get_layer_size` (`overlay2.rs:126-136`). -/
def get_layer_size (st : Overlay2Storage) (chain_id : String) :
    Except PeelErr Nat :=
  let hex := (stripPrefixOpt chain_id "sha256:").getD chain_id
  match alistGet st.layerSizes hex with
  | none => .error (.layerSizeReadFailed chain_id)
  | some s =>
    match parseU64 (strTrim s) with
    | some n => .ok n
    | none => .error .layerSizeParseFailed

/-- The `created_by` extraction loop shared by all backends: push
`entry.created_by` for every history entry with `empty_layer == false`. -/
def nonEmptyCreatedBy (history : List HistoryEntry) : List (Option String) :=
  (history.filter (fun e => e.empty_layer = false)).map (fun e => e.created_by)

/-- The layer-building loop of `Overlay2Inspector::inspect`
(`overlay2.rs:179-188`): per chain ID, size from `get_layer_size`
(`unwrap_or(0)`), `created_by` from the non-empty history list at the same
index, accumulating `total_size`. -/
def overlay2BuildLayers (st : Overlay2Storage) (cbl : List (Option String)) :
    Nat → List String → List LayerInfo × Nat
  | _, [] => ([], 0)
  | i, cid :: rest =>
    let size := match get_layer_size st cid with | .ok n => n | .error _ => 0
    let r := overlay2BuildLayers st cbl (i + 1) rest
    ({ digest := cid, created_by := Option.join (cbl[i]?), size := size,
       files := [] } :: r.1, size + r.2)

/-- `Overlay2Inspector::inspect` (`overlay2.rs:163-197`). -/
def overlay2_inspect (st : Overlay2Storage) (image : String) :
    Except PeelErr ImageInfo :=
  match resolve_image st image with
  | .error e => .error e
  | .ok (name, tag, digest_hex) =>
    match read_image_config st digest_hex with
    | .error e => .error e
    | .ok config =>
      let chain_ids := compute_chain_ids config.rootfs.diff_ids
      let cbl := nonEmptyCreatedBy config.history
      let r := overlay2BuildLayers st cbl 0 chain_ids
      .ok { name := name, tag := some tag, architecture := config.architecture,
            total_size := r.2, layers := r.1 }

/-- `Overlay2Inspector::list_files` (`overlay2.rs:199-211`): resolve the
cache ID, walk the diff tree, sort by path. -/
def overlay2_list_files (st : Overlay2Storage) (layer : LayerInfo) :
    Except PeelErr (List FileEntry) :=
  match get_cache_id st layer.digest with
  | .error e => .error e
  | .ok cache_id =>
    match alistGet st.diffDirs cache_id with
    | none => .error (.layerDirNotFound cache_id)
    | some children => .ok (sortByPath (walkForest [] children))

/-! ## Archive parsing (`src/inspector/archive.rs`) -/

/-- One top-level entry of the outer tar archive: its path, its stored size
(`entry.size()`, consulted by the OCI pass-1 threshold) and its content. -/
structure TarEntry where
  path : String
  size : Nat
  blob : Blob
  deriving Repr, DecidableEq

/-- `ArchiveFormat` (`archive.rs:99-103`). -/
inductive ArchiveFormat where
  | docker
  | oci
  deriving Repr, DecidableEq

/-- `detect_format` (`archive.rs:105-123`): scan the entries in order and
return at the first entry named `manifest.json` (Docker) or `index.json`
(OCI); fail when the scan ends with neither found. -/
def detect_format : List TarEntry → Except PeelErr ArchiveFormat
  | [] => .error .unknownArchiveFormat
  | e :: es =>
    if e.path = "manifest.json" then .ok .docker
    else if e.path = "index.json" then .ok .oci
    else detect_format es

/-- `parse_layer_entry` / `parse_layer_bytes` (`archive.rs:415-430`): read
the (possibly gzipped — transparent here) bytes and parse the inner tar.
`none` models bytes that are not a layer tar at all. -/
def decodeLayer : Blob → Option (List FileEntry)
  | .layerTar es => some (parse_inner_tar es)
  | _ => none

/-- `ArchiveResult` (`archive.rs:11-15`); the `files` map is keyed by
diff ID. -/
structure ArchiveResult where
  info : ImageInfo
  files : List (String × List FileEntry)
  deriving Repr, DecidableEq

/-- The accumulator of the first Docker-format scan (`archive.rs:138-140`). -/
structure DockerScan where
  layer_files : List (String × List FileEntry)
  manifest_data : Option (List DockerManifestEntry)
  configs : List (String × Blob)
  deriving Repr, DecidableEq

/-- One iteration of the first Docker scan (`archive.rs:142-166`). -/
def scanDockerStep (st : DockerScan) (e : TarEntry) : Except PeelErr DockerScan :=
  if e.path = "manifest.json" then
    match e.blob with
    | .dockerManifest v => .ok { st with manifest_data := some v }
    | _ => .error .manifestParseFailed
  else if strEndsWith e.path ".json" then
    .ok { st with configs := alistInsert st.configs e.path e.blob }
  else if strEndsWith e.path "/layer.tar" then
    match decodeLayer e.blob with
    | some files => .ok { st with layer_files := alistInsert st.layer_files e.path files }
    | none => .error (.layerParseFailed e.path)
  else .ok st

/-- The first Docker scan over all entries, in order. -/
def scanDocker (st : DockerScan) : List TarEntry → Except PeelErr DockerScan
  | [] => .ok st
  | e :: es =>
    match scanDockerStep st e with
    | .ok st' => scanDocker st' es
    | .error err => .error err

/-- The second pass (`archive.rs:184-202`): re-scan the archive, parsing
only the entries whose paths the manifest references but the first pass
missed. -/
def dockerSecondPass (missing : List String) :
    List TarEntry → List (String × List FileEntry) →
    Except PeelErr (List (String × List FileEntry))
  | [], lf => .ok lf
  | e :: es, lf =>
    if missing.contains e.path then
      match decodeLayer e.blob with
      | some files => dockerSecondPass missing es (alistInsert lf e.path files)
      | none => .error (.layerParseFailed e.path)
    else dockerSecondPass missing es lf

/-- `me.layers.get(i).and_then(|tar_path| layer_files.remove(tar_path))
.unwrap_or_default()` (`archive.rs:243-247`), returning the taken list and
the shrunk map. -/
def takeLayerFiles (meLayers : List String) (i : Nat)
    (lf : List (String × List FileEntry)) :
    List FileEntry × List (String × List FileEntry) :=
  match meLayers[i]? with
  | some tp =>
    match alistRemove lf tp with
    | some (v, lf') => (v, lf')
    | none => ([], lf)
  | none => ([], lf)

/-- `let size: u64 = layer_file_list.iter().map(|f| f.size).sum()`. -/
def sumFileSizes (fs : List FileEntry) : Nat := (fs.map (fun f => f.size)).sum

/-- The Docker layer-building loop (`archive.rs:238-260`): iterate
`diff_ids` with index `i`, take `Layers[i]`'s parsed file list (empty when
missing), sum file sizes, accumulate `total_size`, and key the file lists
by diff ID.  Returns `(layers, total_size, files_by_diff_id)`. -/
def buildDockerLayers (meLayers : List String) (cbl : List (Option String)) :
    Nat → List (String × List FileEntry) → List (String × List FileEntry) →
    List String → List LayerInfo × Nat × List (String × List FileEntry)
  | _, _, facc, [] => ([], 0, facc)
  | i, lf, facc, d :: ds =>
    let tf := takeLayerFiles meLayers i lf
    let size := sumFileSizes tf.1
    let r := buildDockerLayers meLayers cbl (i + 1) tf.2 (alistInsert facc d tf.1) ds
    ({ digest := d, created_by := Option.join (cbl[i]?), size := size,
       files := [] } :: r.1, size + r.2.1, r.2.2)

/-- The tar paths the manifest references that pass one missed
(`archive.rs:177-182`). -/
def dockerMissing (scan : DockerScan) (me : DockerManifestEntry) : List String :=
  me.layers.filter (fun p => (alistGet scan.layer_files p).isNone)

/-- The layer-file map after the optional second pass
(`archive.rs:184-202`). -/
def dockerLfRes (entries : List TarEntry) (scan : DockerScan)
    (me : DockerManifestEntry) : Except PeelErr (List (String × List FileEntry)) :=
  if (dockerMissing scan me).isEmpty then .ok scan.layer_files
  else dockerSecondPass (dockerMissing scan me) entries scan.layer_files

/-- Diff-ID resolution (`archive.rs:204-224`): the hint verbatim, or the
referenced config's `(architecture, rootfs.diff_ids, created_by list)`. -/
def dockerResolved (scan : DockerScan) (me : DockerManifestEntry)
    (diff_ids_hint : Option (List String)) :
    Except PeelErr (Option String × List String × List (Option String)) :=
  match diff_ids_hint with
  | some hint => .ok (none, hint, [])
  | none =>
    match alistGet scan.configs me.config with
    | none => .error (.configNotFound me.config)
    | some (.imageConfig config) =>
      .ok (config.architecture, config.rootfs.diff_ids,
           nonEmptyCreatedBy config.history)
    | some _ => .error .configParseFailed

/-- Name/tag derivation (`archive.rs:226-235`): RepoTags only when the
caller's name hint is empty. -/
def dockerNameTag (me : DockerManifestEntry) (name tag : String) :
    String × String :=
  if name = "" then
    match me.repo_tags.head? with
    | some rt => parse_image_ref rt
    | none => (name, tag)
  else (name, tag)

/-- The final assembly of `parse_docker_format` (`archive.rs:237-271`). -/
def dockerFinish (name tag : String) (me : DockerManifestEntry)
    (layer_files : List (String × List FileEntry))
    (resv : Option String × List String × List (Option String)) : ArchiveResult :=
  let ft := dockerNameTag me name tag
  let b := buildDockerLayers me.layers resv.2.2 0 layer_files [] resv.2.1
  { info := { name := ft.1, tag := some ft.2, architecture := resv.1,
              total_size := b.2.1, layers := b.1 },
    files := b.2.2 }

/-- `parse_docker_format` (`archive.rs:127-272`), as the composition of
its stages. -/
def parse_docker_format (entries : List TarEntry) (name tag : String)
    (diff_ids_hint : Option (List String)) : Except PeelErr ArchiveResult :=
  match scanDocker { layer_files := [], manifest_data := none, configs := [] } entries with
  | .error e => .error e
  | .ok scan =>
    match scan.manifest_data with
    | none => .error .manifestNotFound
    | some mes =>
      match mes.head? with
      | none => .error .emptyManifest
      | some me =>
        match dockerLfRes entries scan me with
        | .error e => .error e
        | .ok layer_files =>
          match dockerResolved scan me diff_ids_hint with
          | .error e => .error e
          | .ok resv => .ok (dockerFinish name tag me layer_files resv)

/-- The accumulator of OCI pass one (`archive.rs:286-287`). -/
structure OciScan where
  index_data : Option Blob
  small_blobs : List (String × Blob)
  deriving Repr, DecidableEq

/-- OCI pass one (`archive.rs:289-304`): capture `index.json` and every
`blobs/sha256/<hash>` entry whose size is strictly below 1,000,000 bytes. -/
def scanOci (st : OciScan) : List TarEntry → OciScan
  | [] => st
  | e :: es =>
    if e.path = "index.json" then scanOci { st with index_data := some e.blob } es
    else
      match stripPrefixOpt e.path "blobs/sha256/" with
      | some hash =>
        if e.size < 1000000 then
          scanOci { st with
            small_blobs := alistInsert st.small_blobs ("sha256:" ++ hash) e.blob } es
        else scanOci st es
      | none => scanOci st es

/-- The compressed-digest → diff-ID map (`archive.rs:332-337`). -/
def digestToDiffIdGo (diff_ids : List String) (i : Nat)
    (acc : List (String × String)) : List OciDescriptor → List (String × String)
  | [] => acc
  | ld :: rest =>
    match diff_ids[i]? with
    | some d => digestToDiffIdGo diff_ids (i + 1) (alistInsert acc ld.digest d) rest
    | none => digestToDiffIdGo diff_ids (i + 1) acc rest

def digestToDiffId (layers : List OciDescriptor) (diff_ids : List String) :
    List (String × String) :=
  digestToDiffIdGo diff_ids 0 [] layers

/-- OCI pass two (`archive.rs:339-362`): parse every blob entry whose
digest maps to a diff ID not yet parsed. -/
def ociPass2 (dmap : List (String × String)) :
    List TarEntry → List (String × List FileEntry) →
    Except PeelErr (List (String × List FileEntry))
  | [], fbd => .ok fbd
  | e :: es, fbd =>
    match stripPrefixOpt e.path "blobs/sha256/" with
    | some hash =>
      let digest := "sha256:" ++ hash
      match alistGet dmap digest with
      | some diff_id =>
        if (alistGet fbd diff_id).isNone then
          match decodeLayer e.blob with
          | some files => ociPass2 dmap es (alistInsert fbd diff_id files)
          | none => .error (.layerParseFailed digest)
        else ociPass2 dmap es fbd
      | none => ociPass2 dmap es fbd
    | none => ociPass2 dmap es fbd

/-- The tiny-blob sweep (`archive.rs:364-376`), in insertion order (the
source iterates a `HashMap`, whose order is unspecified). -/
def ociSmallLoop (dmap : List (String × String)) :
    List (String × Blob) → List (String × List FileEntry) →
    Except PeelErr (List (String × List FileEntry))
  | [], fbd => .ok fbd
  | (digest, data) :: rest, fbd =>
    match alistGet dmap digest with
    | some diff_id =>
      if (alistGet fbd diff_id).isNone then
        match decodeLayer data with
        | some files => ociSmallLoop dmap rest (alistInsert fbd diff_id files)
        | none => .error (.layerParseFailed digest)
      else ociSmallLoop dmap rest fbd
    | none => ociSmallLoop dmap rest fbd

/-- The OCI layer-building loop (`archive.rs:386-398`): size from
`manifest.layers[i].size` (0 when absent), `created_by` from the non-empty
history list, accumulating `total_size`. -/
def buildOciLayers (manifestLayers : List OciDescriptor)
    (cbl : List (Option String)) : Nat → List String → List LayerInfo × Nat
  | _, [] => ([], 0)
  | i, d :: ds =>
    let size := ((manifestLayers[i]?).map (fun x => x.size)).getD 0
    let r := buildOciLayers manifestLayers cbl (i + 1) ds
    ({ digest := d, created_by := Option.join (cbl[i]?), size := size,
       files := [] } :: r.1, size + r.2)

/-- The `index → manifest → config` resolution of `parse_oci_format`
(`archive.rs:306-327`). -/
def ociResolve (scan : OciScan) : Except PeelErr (OciManifest × ImageConfig) :=
  match scan.index_data with
  | none => .error .indexNotFound
  | some b =>
    match b with
    | .ociIndex index =>
      match index.manifests.head? with
      | none => .error .noManifests
      | some mdesc =>
        match alistGet scan.small_blobs mdesc.digest with
        | none => .error (.manifestBlobNotFound mdesc.digest)
        | some mb =>
          match mb with
          | .ociManifest manifest =>
            match alistGet scan.small_blobs manifest.config.digest with
            | none => .error (.configBlobNotFound manifest.config.digest)
            | some cb =>
              match cb with
              | .imageConfig config => .ok (manifest, config)
              | _ => .error .ociConfigParseFailed
          | _ => .error .ociManifestParseFailed
    | _ => .error .indexParseFailed

/-- Pass two followed by the tiny-blob sweep (`archive.rs:339-376`). -/
def ociFiles (entries : List TarEntry) (scan : OciScan)
    (dmap : List (String × String)) :
    Except PeelErr (List (String × List FileEntry)) :=
  match ociPass2 dmap entries [] with
  | .error e => .error e
  | .ok fbd1 => ociSmallLoop dmap scan.small_blobs fbd1

/-- The final assembly of `parse_oci_format` (`archive.rs:378-409`). -/
def ociFinish (name tag : String) (manifest : OciManifest)
    (config : ImageConfig) (fbd : List (String × List FileEntry)) : ArchiveResult :=
  let cbl := nonEmptyCreatedBy config.history
  let b := buildOciLayers manifest.layers cbl 0 config.rootfs.diff_ids
  { info := { name := name, tag := some tag,
              architecture := config.architecture,
              total_size := b.2, layers := b.1 },
    files := fbd }

/-- `parse_oci_format` (`archive.rs:276-410`), as the composition of its
stages. -/
def parse_oci_format (entries : List TarEntry) (name tag : String) :
    Except PeelErr ArchiveResult :=
  let scan := scanOci { index_data := none, small_blobs := [] } entries
  match ociResolve scan with
  | .error e => .error e
  | .ok (manifest, config) =>
    let dmap := digestToDiffId manifest.layers config.rootfs.diff_ids
    match ociFiles entries scan dmap with
    | .error e => .error e
    | .ok fbd => .ok (ociFinish name tag manifest config fbd)

/-- `parse_archive` (`archive.rs:83-97`): detect the format, dispatch. -/
def parse_archive (entries : List TarEntry) (name tag : String)
    (diff_ids_hint : Option (List String)) : Except PeelErr ArchiveResult :=
  match detect_format entries with
  | .error e => .error e
  | .ok .docker => parse_docker_format entries name tag diff_ids_hint
  | .ok .oci => parse_oci_format entries name tag

/-! ## The archive-backed inspectors' file cache
(`src/inspector/docker_archive.rs`, `src/inspector/oci.rs:650-658`) -/

/-- The cache both archive-backed inspectors keep: `cached_files` keyed by
layer digest, and the `cache_populated` flag set by a successful
`inspect`. -/
structure FileCache where
  cached_files : List (String × List FileEntry)
  cache_populated : Bool
  deriving Repr, DecidableEq

/-- The state of a freshly constructed inspector (`new`). -/
def FileCache.initial : FileCache := { cached_files := [], cache_populated := false }

/-- `list_files` of `DockerArchiveInspector` (`docker_archive.rs:50-58`)
and of `OciInspector` (`oci.rs:650-658`), which are the same logic: error
before `inspect`, otherwise *remove* the digest's entry from the cache
("Layer ... not found" when absent).  Returns the result and the updated
inspector state. -/
def cache_list_files (st : FileCache) (digest : String) :
    Except PeelErr (List FileEntry) × FileCache :=
  if st.cache_populated = false then (.error .inspectNotCalled, st)
  else
    match alistRemove st.cached_files digest with
    | some (files, rest) => (.ok files, { st with cached_files := rest })
    | none => (.error (.layerNotFound digest), st)

/-- `DockerArchiveInspector::inspect` (`docker_archive.rs:28-48`): parse
the archive with the file stem as name hint, an empty tag hint and no
diff-IDs hint; populate the cache. -/
def docker_archive_inspect (fileStem : String) (entries : List TarEntry) :
    Except PeelErr (ImageInfo × FileCache) :=
  match parse_archive entries fileStem "" none with
  | .error e => .error e
  | .ok r => .ok (r.info, { cached_files := r.files, cache_populated := true })

/-! ## IEEE-754 binary64 model

`parse_docker_size` (`src/inspector/oci.rs:675-695`) computes in Rust
`f64`.  Both operations it performs — parsing a decimal literal and one
multiplication — are correctly rounded (round to nearest, ties to even) by
the IEEE-754 semantics Rust guarantees, so they are modelled exactly over
rationals: `roundF64 q` is the binary64 value nearest to `q`.  Rationals
are represented by the explicit fraction type `Frac` (the arithmetic of
Lean's `Rat` is `@[irreducible]`, which would defeat kernel evaluation);
fractions are kept unnormalized, with value-level comparisons by
cross-multiplication.  The model covers the normal finite range (every
value arising in this program); overflow to infinity and subnormal
rounding are not modelled. -/

/-- An exact (unnormalized) fraction; `den` is always positive by
construction. -/
structure Frac where
  num : Int
  den : Nat
  deriving Repr, DecidableEq

def fOfInt (n : Int) : Frac := ⟨n, 1⟩
def fmul (a b : Frac) : Frac := ⟨a.num * b.num, a.den * b.den⟩
def fneg (a : Frac) : Frac := ⟨-a.num, a.den⟩
def fsub (a b : Frac) : Frac := ⟨a.num * b.den - b.num * a.den, a.den * b.den⟩
def flt (a b : Frac) : Bool := decide (a.num * b.den < b.num * a.den)
def fle (a b : Frac) : Bool := decide (a.num * b.den ≤ b.num * a.den)
def fIsZero (a : Frac) : Bool := decide (a.num = 0)
def ffloor (a : Frac) : Int := Int.fdiv a.num a.den

/-- Fuelled base-2 logarithm (`Nat.log2` is defined by well-founded
recursion, which the kernel cannot evaluate; this structural version can). -/
def log2fuel : Nat → Nat → Nat
  | 0, _ => 0
  | fuel + 1, n => if 2 ≤ n then log2fuel fuel (n / 2) + 1 else 0

/-- `⌊log2 n⌋` for `1 ≤ n` (0 at 0). -/
def natLog2 (n : Nat) : Nat := log2fuel n n

/-- `2^e` as a fraction, for integer `e`. -/
def qpow2 : ℤ → Frac
  | .ofNat n => ⟨(2 ^ n : Nat), 1⟩
  | .negSucc n => ⟨1, 2 ^ (n + 1)⟩

/-- `⌊log2 q⌋` for a positive fraction. -/
def qlog2floor (q : Frac) : ℤ :=
  let e0 : ℤ := (natLog2 q.num.natAbs : ℤ) - (natLog2 q.den : ℤ)
  if fle (qpow2 e0) q then e0 else e0 - 1

/-- Round a fraction to the nearest binary64 value (ties to even):
scale the significand into `[2^52, 2^53)`, round half-to-even, rescale. -/
def roundF64 (q : Frac) : Frac :=
  if fIsZero q then fOfInt 0
  else
    let x := if flt q (fOfInt 0) then fneg q else q
    let e := qlog2floor x
    let scaled := fmul x (qpow2 (52 - e))
    let fl := ffloor scaled
    let r := fsub scaled (fOfInt fl)
    let half : Frac := ⟨1, 2⟩
    let n := if flt r half then fl
      else if flt half r then fl + 1
      else if fl % 2 = 0 then fl else fl + 1
    fmul (fOfInt (if flt q (fOfInt 0) then -1 else 1)) (fmul (fOfInt n) (qpow2 (e - 52)))

def allDigits (cs : List Char) : Bool := cs.all (fun c => c.isDigit)

def digitsToNat (cs : List Char) : Nat :=
  cs.foldl (fun a c => a * 10 + (c.toNat - 48)) 0

/-- The exact rational denoted by a plain decimal literal
(`[+|-] digits [. digits]`, at least one digit).  This is the grammar
fragment of `str::parse::<f64>` this program's inputs use; exponent,
infinity and NaN forms are not modelled. -/
def parseDecimalQ (s : String) : Option Frac :=
  let sc : Int × List Char :=
    match s.data with
    | c :: rest =>
      if c = '-' then (-1, rest) else if c = '+' then (1, rest) else (1, s.data)
    | [] => (1, [])
  let ip := sc.2.takeWhile (fun c => c ≠ '.')
  let rest := sc.2.dropWhile (fun c => c ≠ '.')
  match rest with
  | [] =>
    if ip ≠ [] ∧ allDigits ip then some ⟨sc.1 * digitsToNat ip, 1⟩ else none
  | _ :: fp =>
    if (ip ≠ [] ∨ fp ≠ []) ∧ allDigits ip ∧ allDigits fp then
      some ⟨sc.1 * (digitsToNat ip * 10 ^ fp.length + digitsToNat fp), 10 ^ fp.length⟩
    else none

/-- `str::parse::<f64>` on the modelled grammar: the exact decimal value,
correctly rounded to binary64. -/
def f64FromStr (s : String) : Option Frac := (parseDecimalQ s).map roundF64

/-- `as u64` on a finite `f64`: truncate toward zero, saturating at the
`u64` range. -/
def f64ToU64 (x : Frac) : Nat :=
  if flt x (fOfInt 0) then 0
  else if fle (fOfInt 18446744073709551616) x then 18446744073709551615
  else (ffloor x).toNat

/-- Index of the first alphabetic character (`char::is_alphabetic`; every
input here is ASCII, where byte and character indices coincide). -/
def firstAlphaIdx : List Char → Option Nat
  | [] => none
  | c :: cs => if c.isAlpha then some 0 else (firstAlphaIdx cs).map (· + 1)

/-- `parse_docker_size` (`src/inspector/oci.rs:675-695`): trim; `""` and
`"0B"` are 0; a `u64` literal is itself; otherwise split at the first
alphabetic character, parse the prefix as `f64` (`unwrap_or(0.0)`), look
the suffix up in the decimal unit table (unknown suffixes multiply by 1)
and convert the `f64` product with `as u64`. -/
def parse_docker_size (s : String) : Nat :=
  let t := strTrim s
  if t = "" ∨ t = "0B" then 0
  else
    match parseU64 t with
    | some n => n
    | none =>
      let unit_start := (firstAlphaIdx t.data).getD t.data.length
      let num : Frac := (f64FromStr (String.mk (t.data.take unit_start))).getD (fOfInt 0)
      let unit := String.mk (t.data.drop unit_start)
      let multiplier : Frac :=
        if unit = "B" then fOfInt 1
        else if unit = "kB" ∨ unit = "KB" then fOfInt 1000
        else if unit = "MB" then fOfInt 1000000
        else if unit = "GB" then fOfInt 1000000000
        else if unit = "TB" then fOfInt 1000000000000
        else fOfInt 1
      f64ToU64 (roundF64 (fmul num multiplier))

/-! ## Runtime-CLI metadata path (`OciInspector::inspect_via_cli`,
`src/inspector/oci.rs:249-360`) -/

/-- `DockerInspect` (`oci.rs:15-29`): the parsed output of
`docker image inspect`; `rootfs_layers` is `RootFS.Layers` (the diff IDs). -/
structure DockerInspect where
  architecture : Option String
  size : Nat
  rootfs_layers : List String
  deriving Repr, DecidableEq

/-- `HistoryLine` (`oci.rs:31-37`): one parsed line of
`docker image history`; `size` is Docker's human-readable size text. -/
structure HistoryLine where
  created_by : Option String
  size : String
  deriving Repr, DecidableEq

/-- The layer-building loop of `inspect_via_cli` (`oci.rs:317-332`):
`created_by` and `size` from the `i`-th positive-size history entry
(`(None, 0)` past the end), accumulating `total_size`. -/
def buildCliLayers (non_empty : List (Option String × Nat)) :
    Nat → List String → List LayerInfo × Nat
  | _, [] => ([], 0)
  | i, d :: ds =>
    let cs := (non_empty[i]?).getD (none, 0)
    let r := buildCliLayers non_empty (i + 1) ds
    ({ digest := d, created_by := cs.1, size := cs.2, files := [] } :: r.1,
     cs.2 + r.2)

/-- The `ImageInfo` construction of `inspect_via_cli` (`oci.rs:249-360`)
from the parsed CLI outputs: split the reference, reverse the
newest-first history to base-first, keep entries with
`parse_docker_size(Size) > 0`, build the layers.  (The subsequent
`save`/parse populates only the file cache and does not alter this
value.) -/
def inspectViaCliInfo (image : String) (di : DockerInspect)
    (history_newest_first : List HistoryLine) : ImageInfo :=
  let nt := parse_image_ref image
  let hist := history_newest_first.reverse
  let non_empty := (hist.filter (fun e => 0 < parse_docker_size e.size)).map
    (fun e => (e.created_by, parse_docker_size e.size))
  let b := buildCliLayers non_empty 0 di.rootfs_layers
  { name := nt.1, tag := some nt.2, architecture := di.architecture,
    total_size := b.2, layers := b.1 }

/-! ## Backend dispatcher (`src/cmd/inspect.rs`) -/

/-- `Path::file_name` of a path string: the part after the last `/`. -/
def fileNamePart (s : String) : String :=
  match lastIdxOf '/' s.data with
  | some i => String.mk (s.data.drop (i + 1))
  | none => s

/-- `Path::extension`: the part of the file name after its last dot,
none when there is no dot or the only dot leads a hidden file. -/
def extensionOpt (s : String) : Option String :=
  match rsplitOnce (fileNamePart s) '.' with
  | some (before, after) => if before = "" then none else some after
  | none => none

/-- `looks_like_archive` (`src/cmd/inspect.rs:189-195`). -/
def looks_like_archive (image : String) : Bool :=
  (match extensionOpt image with
   | some e => e = "tar" ∨ e = "gz" ∨ e = "tgz"
   | none => false) || strEndsWith image ".tar.gz"

/-- Modelled from the spec: `StorageDriver` is declared in the runtime
probe (`src/probe.rs`, not among the provided sources; spec §4.5 /
§4.4).  `inspect.rs` matches the variants `Overlay2`, `Fuse`, `Vfs` and a
catch-all. -/
inductive StorageDriver where
  | overlay2
  | fuse
  | vfs
  | other
  deriving Repr, DecidableEq

/-- Modelled from the spec: `RuntimeInfo` from the runtime probe
(spec §4.5): binary path, storage root, storage driver and whether the
current process can read the storage root. -/
structure RuntimeInfo where
  binary_path : String
  storage_root : String
  storage_driver : StorageDriver
  can_read : Bool
  deriving Repr, DecidableEq

/-- Modelled from the spec: the probe result consumed by the dispatcher
(spec §4.5): an ordered runtime list and an optional default index. -/
structure ProbeResult where
  runtimes : List RuntimeInfo
  default : Option Nat
  deriving Repr, DecidableEq

/-- The action `escalate_with_sudo` models: re-exec under sudo (the
process never continues past it). -/
inductive EscalateOutcome where
  | reexecUnderSudo
  deriving Repr, DecidableEq

/-- `maybe_escalate` (`src/cmd/inspect.rs:210-256`): fail with
`AlreadyEscalated` when `PEEL_ESCALATED` is set; fail ("Cannot read
storage without root. Remove --no-sudo or use --use-oci.") when
`--no-sudo` was given; otherwise re-exec under sudo. -/
def maybe_escalate (already_escalated : Bool) (no_sudo : Bool) :
    Except PeelErr EscalateOutcome :=
  if already_escalated then .error .alreadyEscalated
  else if no_sudo then .error .cannotReadStorageNoSudo
  else .ok .reexecUnderSudo

/-- The backend the dispatcher hands the inspection to (or the re-exec
that replaces the process). -/
inductive Backend where
  | archive
  | runtimeCli (cmd : String)
  | overlay2Backend (storage_root : String)
  | escalateAndReexec
  deriving Repr, DecidableEq

/-- The backend selection of `run` (`src/cmd/inspect.rs:22-62`): archive
paths go to the archive inspector; `--use-oci` forces the runtime CLI
(default runtime's binary, `"docker"` when none); otherwise the default
runtime's storage is used — an unreadable storage root goes through
`maybe_escalate`, a supported driver to the overlay2 backend, any other
driver falls back to the runtime CLI; no default runtime is fatal. -/
def select_backend (image : String) (use_oci : Bool) (probe : ProbeResult)
    (no_sudo : Bool) (already_escalated : Bool) : Except PeelErr Backend :=
  if looks_like_archive image then .ok .archive
  else if use_oci then
    match probe.default with
    | some i =>
      match probe.runtimes[i]? with
      | some rt => .ok (.runtimeCli rt.binary_path)
      | none => .error .runtimeIndexOutOfBounds
    | none => .ok (.runtimeCli "docker")
  else
    match probe.default with
    | some i =>
      match probe.runtimes[i]? with
      | none => .error .runtimeIndexOutOfBounds
      | some rt =>
        if rt.can_read = false then
          match maybe_escalate already_escalated no_sudo with
          | .error e => .error e
          | .ok .reexecUnderSudo => .ok .escalateAndReexec
        else
          match rt.storage_driver with
          | .overlay2 | .fuse | .vfs => .ok (.overlay2Backend rt.storage_root)
          | .other => .ok (.runtimeCli rt.binary_path)
    | none => .error .noRuntimeDetected

/-! ## Association-list lemmas -/

/-- The keys of an association list. -/
def alistKeys {β : Type} (m : List (String × β)) : List String := m.map Prod.fst

theorem alistGet_insert_self {β : Type} (m : List (String × β)) (k : String) (v : β) :
    alistGet (alistInsert m k v) k = some v := by
  induction m with
  | nil => simp [alistInsert, alistGet]
  | cons p rest ih =>
    obtain ⟨k', v'⟩ := p
    by_cases h : k' = k
    · subst h; simp [alistInsert, alistGet]
    · simp [alistInsert, alistGet, h, ih]

theorem alistGet_insert_ne {β : Type} (m : List (String × β)) (ki kq : String)
    (v : β) (h : ki ≠ kq) : alistGet (alistInsert m ki v) kq = alistGet m kq := by
  induction m with
  | nil => simp [alistInsert, alistGet, h]
  | cons p rest ih =>
    obtain ⟨k', v'⟩ := p
    by_cases h' : k' = ki
    · subst h'; simp [alistInsert, alistGet, h]
    · simp [alistInsert, alistGet, h', ih]

theorem alistRemove_eq_none_iff {β : Type} (m : List (String × β)) (k : String) :
    alistRemove m k = none ↔ alistGet m k = none := by
  induction m with
  | nil => simp [alistRemove, alistGet]
  | cons p rest ih =>
    obtain ⟨k', v'⟩ := p
    by_cases h : k' = k
    · subst h; simp [alistRemove, alistGet]
    · simp only [alistRemove, alistGet, if_neg h]
      cases hr : alistRemove rest k with
      | none => simp [hr, ← ih, hr]
      | some p' => obtain ⟨v'', rest'⟩ := p'; simp [hr, ← ih, hr]

theorem alistGet_remove_none {β : Type} :
    ∀ (m : List (String × β)) (kq kr : String) (v' : β) (m' : List (String × β)),
      alistRemove m kr = some (v', m') → alistGet m kq = none → alistGet m' kq = none := by
  intro m
  induction m with
  | nil => intro kq kr v' m' h; simp [alistRemove] at h
  | cons p rest ih =>
    intro kq kr v' m' h hget
    obtain ⟨k0, v0⟩ := p
    rw [alistGet] at hget
    by_cases hk : k0 = kq
    · simp [hk] at hget
    · rw [if_neg hk] at hget
      rw [alistRemove] at h
      by_cases h0 : k0 = kr
      · rw [if_pos h0] at h
        injection h with h
        injection h with h1 h2
        subst h2; exact hget
      · rw [if_neg h0] at h
        cases hr : alistRemove rest kr with
        | none => rw [hr] at h; cases h
        | some p' =>
          obtain ⟨v'', rest'⟩ := p'
          rw [hr] at h
          injection h with h
          injection h with h1 h2
          subst h2
          rw [alistGet, if_neg hk]
          exact ih kq kr v'' rest' hr hget

theorem alistGet_eq_none_of_not_mem {β : Type} (m : List (String × β)) (k : String)
    (h : k ∉ alistKeys m) : alistGet m k = none := by
  induction m with
  | nil => rfl
  | cons p rest ih =>
    obtain ⟨k0, v0⟩ := p
    rw [alistKeys, List.map_cons, List.mem_cons] at h
    push_neg at h
    rw [alistGet, if_neg (fun he => h.1 he.symm)]
    exact ih (by simpa [alistKeys] using h.2)

theorem alistKeys_insert_mem {β : Type} (m : List (String × β)) (k x : String) (v : β) :
    x ∈ alistKeys (alistInsert m k v) ↔ x ∈ alistKeys m ∨ x = k := by
  induction m with
  | nil => simp [alistInsert, alistKeys]
  | cons p rest ih =>
    obtain ⟨k0, v0⟩ := p
    by_cases h : k0 = k
    · subst h; simp [alistInsert, alistKeys]; tauto
    · simp only [alistInsert, if_neg h, alistKeys, List.map_cons, List.mem_cons] at ih ⊢
      rw [show (alistInsert rest k v).map Prod.fst = alistKeys (alistInsert rest k v) from rfl] at ih ⊢
      tauto

theorem alistKeys_insert_nodup {β : Type} (m : List (String × β)) (k : String) (v : β)
    (h : (alistKeys m).Nodup) : (alistKeys (alistInsert m k v)).Nodup := by
  induction m with
  | nil => simp [alistInsert, alistKeys]
  | cons p rest ih =>
    obtain ⟨k0, v0⟩ := p
    rw [alistKeys, List.map_cons, List.nodup_cons] at h
    by_cases he : k0 = k
    · subst he
      have hins : alistInsert ((k0, v0) :: rest) k0 v = (k0, v) :: rest := by
        simp [alistInsert]
      rw [hins, alistKeys, List.map_cons, List.nodup_cons]
      exact ⟨h.1, h.2⟩
    · rw [alistInsert, if_neg he, alistKeys, List.map_cons, List.nodup_cons]
      refine ⟨fun hmem => ?_, ih h.2⟩
      rcases (alistKeys_insert_mem rest k k0 v).mp hmem with hm | hm
      · exact h.1 hm
      · exact he hm

theorem alistRemove_get_none_of_nodup {β : Type} :
    ∀ (m : List (String × β)) (k : String) (v' : β) (m' : List (String × β)),
      (alistKeys m).Nodup → alistRemove m k = some (v', m') →
      alistGet m' k = none := by
  intro m
  induction m with
  | nil => intro k v' m' _ h; simp [alistRemove] at h
  | cons p rest ih =>
    intro k v' m' hn h
    obtain ⟨k0, v0⟩ := p
    rw [alistKeys, List.map_cons, List.nodup_cons] at hn
    rw [alistRemove] at h
    by_cases h0 : k0 = k
    · rw [if_pos h0] at h
      injection h with h
      injection h with h1 h2
      subst h2 h0
      exact alistGet_eq_none_of_not_mem rest k0 hn.1
    · rw [if_neg h0] at h
      cases hr : alistRemove rest k with
      | none => rw [hr] at h; cases h
      | some p' =>
        obtain ⟨v'', rest'⟩ := p'
        rw [hr] at h
        injection h with h
        injection h with h1 h2
        subst h2
        rw [alistGet, if_neg h0]
        exact ih k v'' rest' hn.2 hr

/-! ## Layer-building loop lemmas -/

/-- `Σ layers[i].size`. -/
def sumLayerSizes (ls : List LayerInfo) : Nat := (ls.map (fun l => l.size)).sum

theorem buildDockerLayers_length (meLayers : List String)
    (cbl : List (Option String)) :
    ∀ (ds : List String) (i : Nat) (lf facc : List (String × List FileEntry)),
      ((buildDockerLayers meLayers cbl i lf facc ds).1).length = ds.length := by
  intro ds
  induction ds with
  | nil => intro i lf facc; rfl
  | cons d rest ih => intro i lf facc; simp [buildDockerLayers, ih]

theorem buildDockerLayers_total (meLayers : List String)
    (cbl : List (Option String)) :
    ∀ (ds : List String) (i : Nat) (lf facc : List (String × List FileEntry)),
      (buildDockerLayers meLayers cbl i lf facc ds).2.1 =
        sumLayerSizes (buildDockerLayers meLayers cbl i lf facc ds).1 := by
  intro ds
  induction ds with
  | nil => intro i lf facc; rfl
  | cons d rest ih =>
    intro i lf facc
    have h := ih (i + 1) (takeLayerFiles meLayers i lf).2
      (alistInsert facc d (takeLayerFiles meLayers i lf).1)
    simp only [buildDockerLayers, sumLayerSizes, List.map_cons, List.sum_cons] at h ⊢
    omega

theorem buildDockerLayers_created_by (meLayers : List String)
    (cbl : List (Option String)) :
    ∀ (ds : List String) (i : Nat) (lf facc : List (String × List FileEntry))
      (j : Nat), j < ds.length →
      (((buildDockerLayers meLayers cbl i lf facc ds).1)[j]?).map
          (fun l => l.created_by) =
        some (Option.join (cbl[i + j]?)) := by
  intro ds
  induction ds with
  | nil => intro i lf facc j hj; cases hj
  | cons d rest ih =>
    intro i lf facc j hj
    cases j with
    | zero => simp [buildDockerLayers]
    | succ j =>
      have h' : j < rest.length := Nat.lt_of_succ_lt_succ hj
      have h2 := ih (i + 1) (takeLayerFiles meLayers i lf).2
        (alistInsert facc d (takeLayerFiles meLayers i lf).1) j h'
      rw [show i + 1 + j = i + (j + 1) from by omega] at h2
      simpa [buildDockerLayers] using h2

theorem takeLayerFiles_get_none (meLayers : List String) (i : Nat)
    (lf : List (String × List FileEntry)) (p : String)
    (h : alistGet lf p = none) :
    alistGet (takeLayerFiles meLayers i lf).2 p = none := by
  cases hml : meLayers[i]? with
  | none => simp only [takeLayerFiles, hml]; exact h
  | some tp =>
    simp only [takeLayerFiles, hml]
    cases hr : alistRemove lf tp with
    | none => simp only [hr]; exact h
    | some pr =>
      obtain ⟨v, lf'⟩ := pr
      simp only [hr]
      exact alistGet_remove_none lf p tp v lf' hr h

/-- A manifest layer path that is absent from the layer-file map yields the
empty file list, hence layer size 0. -/
theorem buildDockerLayers_missing (meLayers : List String)
    (cbl : List (Option String)) :
    ∀ (ds : List String) (i : Nat) (lf facc : List (String × List FileEntry))
      (j : Nat), j < ds.length →
      (meLayers[i + j]? = none ∨
        ∃ tp, meLayers[i + j]? = some tp ∧ alistGet lf tp = none) →
      (((buildDockerLayers meLayers cbl i lf facc ds).1)[j]?).map
          (fun l => (l.size, l.files)) = some (0, []) := by
  intro ds
  induction ds with
  | nil => intro i lf facc j hj; cases hj
  | cons d rest ih =>
    intro i lf facc j hj hmiss
    cases j with
    | zero =>
      have htake : (takeLayerFiles meLayers i lf).1 = [] := by
        rcases hmiss with hm | ⟨tp, hm, hget⟩
        · rw [Nat.add_zero] at hm
          simp [takeLayerFiles, hm]
        · rw [Nat.add_zero] at hm
          simp [takeLayerFiles, hm, (alistRemove_eq_none_iff lf tp).mpr hget]
      simp [buildDockerLayers, htake, sumFileSizes]
    | succ j =>
      have h' : j < rest.length := Nat.lt_of_succ_lt_succ hj
      have hmiss' : meLayers[(i + 1) + j]? = none ∨
          ∃ tp, meLayers[(i + 1) + j]? = some tp ∧
            alistGet (takeLayerFiles meLayers i lf).2 tp = none := by
        rcases hmiss with hm | ⟨tp, hm, hget⟩
        · left; rw [show i + 1 + j = i + (j + 1) by omega]; exact hm
        · right
          exact ⟨tp, by rw [show i + 1 + j = i + (j + 1) by omega]; exact hm,
            takeLayerFiles_get_none meLayers i lf tp hget⟩
      have := ih (i + 1) (takeLayerFiles meLayers i lf).2
        (alistInsert facc d (takeLayerFiles meLayers i lf).1) j h' hmiss'
      simpa [buildDockerLayers] using this

/-- Keys not among the remaining diff IDs are untouched in the
files-by-diff-ID accumulator. -/
theorem buildDockerLayers_files_untouched (meLayers : List String)
    (cbl : List (Option String)) :
    ∀ (ds : List String) (i : Nat) (lf facc : List (String × List FileEntry))
      (key : String), key ∉ ds →
      alistGet ((buildDockerLayers meLayers cbl i lf facc ds).2.2) key =
        alistGet facc key := by
  intro ds
  induction ds with
  | nil => intro i lf facc key _; rfl
  | cons d rest ih =>
    intro i lf facc key hk
    rw [List.mem_cons] at hk
    push_neg at hk
    rw [buildDockerLayers]
    have := ih (i + 1) (takeLayerFiles meLayers i lf).2
      (alistInsert facc d (takeLayerFiles meLayers i lf).1) key hk.2
    rw [this, alistGet_insert_ne _ _ _ _ (fun h => hk.1 h.symm)]

/-- For pairwise-distinct diff IDs, a missing manifest path leaves the
empty file list in the files map. -/
theorem buildDockerLayers_files_missing (meLayers : List String)
    (cbl : List (Option String)) :
    ∀ (ds : List String) (i : Nat) (lf facc : List (String × List FileEntry))
      (j : Nat) (d : String), ds[j]? = some d → ds.Nodup →
      (meLayers[i + j]? = none ∨
        ∃ tp, meLayers[i + j]? = some tp ∧ alistGet lf tp = none) →
      alistGet ((buildDockerLayers meLayers cbl i lf facc ds).2.2) d = some [] := by
  intro ds
  induction ds with
  | nil => intro i lf facc j d hd; simp at hd
  | cons d0 rest ih =>
    intro i lf facc j d hd hnd hmiss
    rw [List.nodup_cons] at hnd
    cases j with
    | zero =>
      rw [List.getElem?_cons_zero] at hd
      injection hd with hd
      subst hd
      have htake : (takeLayerFiles meLayers i lf).1 = [] := by
        rcases hmiss with hm | ⟨tp, hm, hget⟩
        · rw [Nat.add_zero] at hm
          simp [takeLayerFiles, hm]
        · rw [Nat.add_zero] at hm
          simp [takeLayerFiles, hm, (alistRemove_eq_none_iff lf tp).mpr hget]
      have huntouched := buildDockerLayers_files_untouched meLayers cbl rest (i + 1)
        (takeLayerFiles meLayers i lf).2
        (alistInsert facc d0 (takeLayerFiles meLayers i lf).1) d0 hnd.1
      simp only [buildDockerLayers]
      rw [huntouched, htake]
      exact alistGet_insert_self facc d0 []
    | succ j =>
      rw [List.getElem?_cons_succ] at hd
      have hmiss' : meLayers[(i + 1) + j]? = none ∨
          ∃ tp, meLayers[(i + 1) + j]? = some tp ∧
            alistGet (takeLayerFiles meLayers i lf).2 tp = none := by
        rcases hmiss with hm | ⟨tp, hm, hget⟩
        · left; rw [show i + 1 + j = i + (j + 1) by omega]; exact hm
        · right
          exact ⟨tp, by rw [show i + 1 + j = i + (j + 1) by omega]; exact hm,
            takeLayerFiles_get_none meLayers i lf tp hget⟩
      rw [buildDockerLayers]
      exact ih (i + 1) (takeLayerFiles meLayers i lf).2
        (alistInsert facc d0 (takeLayerFiles meLayers i lf).1) j d hd hnd.2 hmiss'

theorem buildOciLayers_length (manifestLayers : List OciDescriptor)
    (cbl : List (Option String)) :
    ∀ (ds : List String) (i : Nat),
      ((buildOciLayers manifestLayers cbl i ds).1).length = ds.length := by
  intro ds
  induction ds with
  | nil => intro i; rfl
  | cons d rest ih => intro i; simp [buildOciLayers, ih]

theorem buildOciLayers_total (manifestLayers : List OciDescriptor)
    (cbl : List (Option String)) :
    ∀ (ds : List String) (i : Nat),
      (buildOciLayers manifestLayers cbl i ds).2 =
        sumLayerSizes (buildOciLayers manifestLayers cbl i ds).1 := by
  intro ds
  induction ds with
  | nil => intro i; rfl
  | cons d rest ih =>
    intro i
    have h := ih (i + 1)
    simp only [buildOciLayers, sumLayerSizes, List.map_cons, List.sum_cons] at h ⊢
    omega

theorem buildOciLayers_created_by (manifestLayers : List OciDescriptor)
    (cbl : List (Option String)) :
    ∀ (ds : List String) (i : Nat) (j : Nat), j < ds.length →
      (((buildOciLayers manifestLayers cbl i ds).1)[j]?).map
          (fun l => l.created_by) =
        some (Option.join (cbl[i + j]?)) := by
  intro ds
  induction ds with
  | nil => intro i j hj; cases hj
  | cons d rest ih =>
    intro i j hj
    cases j with
    | zero => simp [buildOciLayers]
    | succ j =>
      have h' : j < rest.length := Nat.lt_of_succ_lt_succ hj
      have h2 := ih (i + 1) j h'
      rw [show i + 1 + j = i + (j + 1) from by omega] at h2
      simpa [buildOciLayers] using h2

theorem overlay2BuildLayers_length (st : Overlay2Storage)
    (cbl : List (Option String)) :
    ∀ (ds : List String) (i : Nat),
      ((overlay2BuildLayers st cbl i ds).1).length = ds.length := by
  intro ds
  induction ds with
  | nil => intro i; rfl
  | cons d rest ih => intro i; simp [overlay2BuildLayers, ih]

theorem overlay2BuildLayers_total (st : Overlay2Storage)
    (cbl : List (Option String)) :
    ∀ (ds : List String) (i : Nat),
      (overlay2BuildLayers st cbl i ds).2 =
        sumLayerSizes (overlay2BuildLayers st cbl i ds).1 := by
  intro ds
  induction ds with
  | nil => intro i; rfl
  | cons d rest ih =>
    intro i
    have h := ih (i + 1)
    simp only [overlay2BuildLayers, sumLayerSizes, List.map_cons, List.sum_cons] at h ⊢
    omega

theorem overlay2BuildLayers_created_by (st : Overlay2Storage)
    (cbl : List (Option String)) :
    ∀ (ds : List String) (i : Nat) (j : Nat), j < ds.length →
      (((overlay2BuildLayers st cbl i ds).1)[j]?).map
          (fun l => l.created_by) =
        some (Option.join (cbl[i + j]?)) := by
  intro ds
  induction ds with
  | nil => intro i j hj; cases hj
  | cons d rest ih =>
    intro i j hj
    cases j with
    | zero => simp [overlay2BuildLayers]
    | succ j =>
      have h' : j < rest.length := Nat.lt_of_succ_lt_succ hj
      have h2 := ih (i + 1) j h'
      rw [show i + 1 + j = i + (j + 1) from by omega] at h2
      simpa [overlay2BuildLayers] using h2

theorem buildCliLayers_total (non_empty : List (Option String × Nat)) :
    ∀ (ds : List String) (i : Nat),
      (buildCliLayers non_empty i ds).2 =
        sumLayerSizes (buildCliLayers non_empty i ds).1 := by
  intro ds
  induction ds with
  | nil => intro i; rfl
  | cons d rest ih =>
    intro i
    have h := ih (i + 1)
    simp only [buildCliLayers, sumLayerSizes, List.map_cons, List.sum_cons] at h ⊢
    omega

/-! ## Inversion lemmas for the parsers -/

/-- A successful Docker-format parse decomposes into its stages. -/
theorem parse_docker_format_inv {entries : List TarEntry} {name tag : String}
    {hint : Option (List String)} {r : ArchiveResult}
    (h : parse_docker_format entries name tag hint = .ok r) :
    ∃ scan mes me layer_files resv,
      scanDocker { layer_files := [], manifest_data := none, configs := [] }
          entries = .ok scan ∧
      scan.manifest_data = some mes ∧
      mes.head? = some me ∧
      dockerLfRes entries scan me = .ok layer_files ∧
      dockerResolved scan me hint = .ok resv ∧
      r = dockerFinish name tag me layer_files resv := by
  unfold parse_docker_format at h
  cases hscan : scanDocker { layer_files := [], manifest_data := none, configs := [] } entries with
  | error e => simp only [hscan] at h; exact (Except.noConfusion h)
  | ok scan =>
    simp only [hscan] at h
    cases hmd : scan.manifest_data with
    | none => simp only [hmd] at h; exact (Except.noConfusion h)
    | some mes =>
      simp only [hmd] at h
      cases hhd : mes.head? with
      | none => simp only [hhd] at h; exact (Except.noConfusion h)
      | some me =>
        simp only [hhd] at h
        cases hlf : dockerLfRes entries scan me with
        | error e => simp only [hlf] at h; exact (Except.noConfusion h)
        | ok layer_files =>
          simp only [hlf] at h
          cases hres : dockerResolved scan me hint with
          | error e => simp only [hres] at h; exact (Except.noConfusion h)
          | ok resv =>
            simp only [hres] at h
            injection h with h
            exact ⟨scan, mes, me, layer_files, resv, rfl, hmd, hhd, hlf, hres, h.symm⟩

/-- Conversely, once every stage resolves, the Docker-format parse
succeeds (with the assembled result). -/
theorem parse_docker_format_ok_of_stages {entries : List TarEntry}
    {name tag : String} {hint : Option (List String)} {scan : DockerScan}
    {mes : List DockerManifestEntry} {me : DockerManifestEntry}
    {layer_files : List (String × List FileEntry)}
    {resv : Option String × List String × List (Option String)}
    (hscan : scanDocker { layer_files := [], manifest_data := none, configs := [] }
        entries = .ok scan)
    (hmd : scan.manifest_data = some mes)
    (hhd : mes.head? = some me)
    (hlf : dockerLfRes entries scan me = .ok layer_files)
    (hres : dockerResolved scan me hint = .ok resv) :
    parse_docker_format entries name tag hint =
      .ok (dockerFinish name tag me layer_files resv) := by
  unfold parse_docker_format
  simp only [hscan, hmd, hhd, hlf, hres]

/-- A successful OCI-format parse decomposes into its stages. -/
theorem parse_oci_format_inv {entries : List TarEntry} {name tag : String}
    {r : ArchiveResult}
    (h : parse_oci_format entries name tag = .ok r) :
    ∃ manifest config fbd,
      ociResolve (scanOci { index_data := none, small_blobs := [] } entries) =
        .ok (manifest, config) ∧
      ociFiles entries (scanOci { index_data := none, small_blobs := [] } entries)
          (digestToDiffId manifest.layers config.rootfs.diff_ids) = .ok fbd ∧
      r = ociFinish name tag manifest config fbd := by
  unfold parse_oci_format at h
  cases hres : ociResolve (scanOci { index_data := none, small_blobs := [] } entries) with
  | error e => simp only [hres] at h; exact (Except.noConfusion h)
  | ok mc =>
    obtain ⟨manifest, config⟩ := mc
    simp only [hres] at h
    cases hfb : ociFiles entries (scanOci { index_data := none, small_blobs := [] } entries)
        (digestToDiffId manifest.layers config.rootfs.diff_ids) with
    | error e => simp only [hfb] at h; exact (Except.noConfusion h)
    | ok fbd =>
      simp only [hfb] at h
      injection h with h
      exact ⟨manifest, config, fbd, rfl, hfb, h.symm⟩

/-- A successful overlay2 inspection decomposes into its stages. -/
theorem overlay2_inspect_inv {st : Overlay2Storage} {image : String}
    {r : ImageInfo} (h : overlay2_inspect st image = .ok r) :
    ∃ name tag digest_hex config,
      resolve_image st image = .ok (name, tag, digest_hex) ∧
      read_image_config st digest_hex = .ok config ∧
      r = { name := name, tag := some tag, architecture := config.architecture,
            total_size := (overlay2BuildLayers st
              (nonEmptyCreatedBy config.history) 0
              (compute_chain_ids config.rootfs.diff_ids)).2,
            layers := (overlay2BuildLayers st
              (nonEmptyCreatedBy config.history) 0
              (compute_chain_ids config.rootfs.diff_ids)).1 } := by
  unfold overlay2_inspect at h
  cases hres : resolve_image st image with
  | error e => simp only [hres] at h; exact (Except.noConfusion h)
  | ok ntd =>
    obtain ⟨name, tag, digest_hex⟩ := ntd
    simp only [hres] at h
    cases hcfg : read_image_config st digest_hex with
    | error e => simp only [hcfg] at h; exact (Except.noConfusion h)
    | ok config =>
      simp only [hcfg] at h
      injection h with h
      exact ⟨name, tag, digest_hex, config, rfl, hcfg, h.symm⟩

/-! ## Detection lemmas -/

theorem detect_format_cons_skip (e : TarEntry) (es : List TarEntry)
    (h1 : e.path ≠ "manifest.json") (h2 : e.path ≠ "index.json") :
    detect_format (e :: es) = detect_format es := by
  simp [detect_format, h1, h2]

theorem detect_format_docker_of (es : List TarEntry)
    (hm : ∃ e ∈ es, e.path = "manifest.json")
    (hi : ∀ e ∈ es, e.path ≠ "index.json") :
    detect_format es = .ok .docker := by
  induction es with
  | nil => obtain ⟨e, he, _⟩ := hm; cases he
  | cons e es ih =>
    by_cases h1 : e.path = "manifest.json"
    · simp [detect_format, h1]
    · rw [detect_format_cons_skip e es h1 (hi e (List.mem_cons_self e es))]
      apply ih
      · obtain ⟨e', he', hp⟩ := hm
        rcases List.mem_cons.mp he' with rfl | he'
        · exact absurd hp h1
        · exact ⟨e', he', hp⟩
      · exact fun e' he' => hi e' (List.mem_cons_of_mem e he')

theorem detect_format_oci_of (es : List TarEntry)
    (hi : ∃ e ∈ es, e.path = "index.json")
    (hm : ∀ e ∈ es, e.path ≠ "manifest.json") :
    detect_format es = .ok .oci := by
  induction es with
  | nil => obtain ⟨e, he, _⟩ := hi; cases he
  | cons e es ih =>
    have h1 : e.path ≠ "manifest.json" := hm e (List.mem_cons_self e es)
    by_cases h2 : e.path = "index.json"
    · simp [detect_format, h1, h2]
    · rw [detect_format_cons_skip e es h1 h2]
      apply ih
      · obtain ⟨e', he', hp⟩ := hi
        rcases List.mem_cons.mp he' with rfl | he'
        · exact absurd hp h2
        · exact ⟨e', he', hp⟩
      · exact fun e' he' => hm e' (List.mem_cons_of_mem e he')

theorem detect_format_error_of (es : List TarEntry)
    (h : ∀ e ∈ es, e.path ≠ "manifest.json" ∧ e.path ≠ "index.json") :
    detect_format es = .error .unknownArchiveFormat := by
  induction es with
  | nil => rfl
  | cons e es ih =>
    have he := h e (List.mem_cons_self e es)
    rw [detect_format_cons_skip e es he.1 he.2]
    exact ih (fun e' he' => h e' (List.mem_cons_of_mem e he'))

theorem detect_format_first (pre : List TarEntry) (e : TarEntry)
    (post : List TarEntry)
    (hpre : ∀ e' ∈ pre, e'.path ≠ "manifest.json" ∧ e'.path ≠ "index.json")
    (he : e.path = "manifest.json" ∨ e.path = "index.json") :
    detect_format (pre ++ e :: post) =
      .ok (if e.path = "manifest.json" then ArchiveFormat.docker
           else ArchiveFormat.oci) := by
  induction pre with
  | nil =>
    simp only [List.nil_append]
    by_cases h1 : e.path = "manifest.json"
    · simp [detect_format, h1]
    · rcases he with he | he
      · exact absurd he h1
      · simp [detect_format, h1, he]
  | cons p pre ih =>
    have hp := hpre p (List.mem_cons_self p pre)
    rw [List.cons_append, detect_format_cons_skip p _ hp.1 hp.2]
    exact ih (fun e' he' => hpre e' (List.mem_cons_of_mem p he'))

theorem parse_archive_eq_docker {es : List TarEntry} {n t : String}
    {h : Option (List String)} (hd : detect_format es = .ok .docker) :
    parse_archive es n t h = parse_docker_format es n t h := by
  unfold parse_archive; simp only [hd]

theorem parse_archive_eq_oci {es : List TarEntry} {n t : String}
    {h : Option (List String)} (hd : detect_format es = .ok .oci) :
    parse_archive es n t h = parse_oci_format es n t := by
  unfold parse_archive; simp only [hd]

theorem parse_archive_eq_error {es : List TarEntry} {n t : String}
    {h : Option (List String)} {e : PeelErr} (hd : detect_format es = .error e) :
    parse_archive es n t h = .error e := by
  unfold parse_archive; simp only [hd]

/-! ## Demo fixtures (concrete inputs for witnesses and counterexamples) -/

/-- The S6 image config: history `[A (empty), B, C (empty), D]`,
`diff_ids = [X, Y]`. -/
def c3config : ImageConfig :=
  { architecture := none,
    rootfs := { diff_ids := ["X", "Y"] },
    history :=
      [ { created_by := some "A-cmd", empty_layer := true },
        { created_by := some "B-cmd", empty_layer := false },
        { created_by := some "C-cmd", empty_layer := true },
        { created_by := some "D-cmd", empty_layer := false } ] }

def c3me : DockerManifestEntry :=
  { config := "c.json", layers := [], repo_tags := [] }

/-- A minimal Docker-layout archive carrying the S6 config. -/
def c3demo : List TarEntry :=
  [ ⟨"manifest.json", 0, .dockerManifest [c3me]⟩,
    ⟨"c.json", 0, .imageConfig c3config⟩ ]

def c3scan : DockerScan :=
  { layer_files := [], manifest_data := some [c3me],
    configs := [("c.json", .imageConfig c3config)] }

def c3info : ImageInfo :=
  { name := "img", tag := some "", architecture := none, total_size := 0,
    layers :=
      [ { digest := "X", created_by := some "B-cmd", size := 0, files := [] },
        { digest := "Y", created_by := some "D-cmd", size := 0, files := [] } ] }

def c3result : ArchiveResult :=
  { info := c3info, files := [("X", []), ("Y", [])] }

def c3cache : FileCache :=
  { cached_files := [("X", []), ("Y", [])], cache_populated := true }

/-! ## Claim C1 -/

/-- C1 counterexample: an archive containing both `index.json` and
`manifest.json`, with `index.json` appearing first, is detected as OCI,
not Docker. -/
theorem C1_counterexample :
    detect_format
        [⟨"index.json", 0, Blob.malformed⟩, ⟨"manifest.json", 0, Blob.malformed⟩] =
      .ok ArchiveFormat.oci ∧
    ArchiveFormat.oci ≠ ArchiveFormat.docker :=
  ⟨rfl, by decide⟩

/-- C1 (amended): `parse_archive` dispatches on the *first* entry named
`manifest.json` or `index.json` in archive order: an archive containing
`manifest.json` and no `index.json` parses as Docker; one containing
`index.json` and no `manifest.json` parses as OCI; one containing neither
fails with the unknown-archive-format error; and when both are present the
format of the first such entry wins. -/
theorem C1_format_detection :
    (∀ (es : List TarEntry), (∃ e ∈ es, e.path = "manifest.json") →
       (∀ e ∈ es, e.path ≠ "index.json") →
       ∀ (n t : String) (h : Option (List String)),
         parse_archive es n t h = parse_docker_format es n t h) ∧
    (∀ (es : List TarEntry), (∃ e ∈ es, e.path = "index.json") →
       (∀ e ∈ es, e.path ≠ "manifest.json") →
       ∀ (n t : String) (h : Option (List String)),
         parse_archive es n t h = parse_oci_format es n t) ∧
    (∀ (es : List TarEntry),
       (∀ e ∈ es, e.path ≠ "manifest.json" ∧ e.path ≠ "index.json") →
       ∀ (n t : String) (h : Option (List String)),
         parse_archive es n t h = .error .unknownArchiveFormat) ∧
    (∀ (pre : List TarEntry) (e : TarEntry) (post : List TarEntry),
       (∀ e' ∈ pre, e'.path ≠ "manifest.json" ∧ e'.path ≠ "index.json") →
       (e.path = "manifest.json" ∨ e.path = "index.json") →
       detect_format (pre ++ e :: post) =
         .ok (if e.path = "manifest.json" then ArchiveFormat.docker
              else ArchiveFormat.oci)) :=
  ⟨fun es hm hi _ _ _ => parse_archive_eq_docker (detect_format_docker_of es hm hi),
   fun es hi hm _ _ _ => parse_archive_eq_oci (detect_format_oci_of es hi hm),
   fun es h _ _ _ => parse_archive_eq_error (detect_format_error_of es h),
   detect_format_first⟩

/-- C1 witness: the detection facts at concrete one-entry archives. -/
theorem C1_witness :
    ((∃ e ∈ [(⟨"manifest.json", 0, Blob.dockerManifest [c3me]⟩ : TarEntry)],
        e.path = "manifest.json") ∧
      parse_archive [⟨"manifest.json", 0, Blob.dockerManifest [c3me]⟩] "n" "t" none =
        parse_docker_format [⟨"manifest.json", 0, Blob.dockerManifest [c3me]⟩] "n" "t" none) ∧
    ((∀ e ∈ [(⟨"data.bin", 0, Blob.malformed⟩ : TarEntry)],
        e.path ≠ "manifest.json" ∧ e.path ≠ "index.json") ∧
      parse_archive [⟨"data.bin", 0, Blob.malformed⟩] "n" "t" none =
        .error .unknownArchiveFormat) :=
  ⟨⟨by decide,
    C1_format_detection.1 _ ⟨_, List.mem_singleton.mpr rfl, rfl⟩ (by decide) "n" "t" none⟩,
   ⟨by decide, C1_format_detection.2.2.1 _ (by decide) "n" "t" none⟩⟩

/-! ## Claim C2 -/

/-- The S2 scenario, evaluated: the second chain ID is the actual SHA-256
of `"sha256:aa sha256:bb"`. -/
theorem compute_chain_ids_demo :
    compute_chain_ids ["sha256:aa", "sha256:bb"] =
      ["sha256:aa",
       "sha256:b68ad689d6d1ec110ea1c13617437ad6f3766d4b3b309f6a603a222e07a0164f"] := by
  rfl

/-- C2: for a non-empty `diff_ids` list, `compute_chain_ids` preserves the
length, starts with `diff_ids[0]`, and each later element is
`"sha256:" ++ lowerhex (sha256 (chain[i-1] ++ " " ++ diff[i]))`. -/
theorem C2_chain_ids (ds : List String) (h : ds ≠ []) :
    (compute_chain_ids ds).length = ds.length ∧
    (compute_chain_ids ds)[0]? = ds[0]? ∧
    ∀ i, 1 ≤ i → i < ds.length →
      (compute_chain_ids ds)[i]? =
        some ("sha256:" ++ toHexString (sha256 (strBytes
          ((((compute_chain_ids ds)[i - 1]?).getD "") ++ " " ++
            ((ds[i]?).getD ""))))) := by
  cases ds with
  | nil => exact absurd rfl h
  | cons d ds =>
    refine ⟨by simp [compute_chain_ids, chainGo_length],
            by simp [compute_chain_ids], ?_⟩
    intro i h1 hlen
    obtain ⟨j, rfl⟩ : ∃ j, i = j + 1 := ⟨i - 1, by omega⟩
    have hj : j < ds.length := by
      simp only [List.length_cons] at hlen; omega
    have hrec := chainGo_getElem d ds j hj
    simp only [compute_chain_ids, List.getElem?_cons_succ, Nat.add_sub_cancel]
    rw [hrec]
    rfl

/-- C2 witness: the theorem instantiated at the S2 input. -/
theorem C2_witness :
    ((["sha256:aa", "sha256:bb"] : List String) ≠ []) ∧
    ((compute_chain_ids ["sha256:aa", "sha256:bb"]).length =
        (["sha256:aa", "sha256:bb"] : List String).length ∧
      (compute_chain_ids ["sha256:aa", "sha256:bb"])[0]? =
        (["sha256:aa", "sha256:bb"] : List String)[0]? ∧
      ∀ i, 1 ≤ i → i < (["sha256:aa", "sha256:bb"] : List String).length →
        (compute_chain_ids ["sha256:aa", "sha256:bb"])[i]? =
          some ("sha256:" ++ toHexString (sha256 (strBytes
            ((((compute_chain_ids ["sha256:aa", "sha256:bb"])[i - 1]?).getD "") ++
              " " ++ (((["sha256:aa", "sha256:bb"] : List String)[i]?).getD "")))))) :=
  ⟨by decide, C2_chain_ids ["sha256:aa", "sha256:bb"] (by decide)⟩

/-! ## Claim C4 -/

/-- C4: at the failing input — a probed default runtime whose storage root
is not readable, with `--no-sudo` set and `PEEL_ESCALATED` unset — the
dispatcher fails ("Cannot read storage without root. Remove --no-sudo or
use --use-oci.") instead of selecting the Runtime-CLI backend. -/
theorem C4_no_sudo_error :
    select_backend "nginx" false
      { runtimes :=
          [ { binary_path := "/usr/bin/docker",
              storage_root := "/var/lib/docker",
              storage_driver := StorageDriver.overlay2, can_read := false } ],
        default := some 0 }
      true false = .error .cannotReadStorageNoSudo ∧
    (Except.error PeelErr.cannotReadStorageNoSudo ≠
      (.ok (Backend.runtimeCli "/usr/bin/docker") : Except PeelErr Backend)) :=
  ⟨rfl, fun h => Except.noConfusion h⟩

/-! ## Claim C5 -/

/-- C5 counterexample: the numeric prefix of `"1.001kB"` denotes exactly
`1001/1000`, whose product with the `kB` multiplier has exact floor 1001 —
but `parse_docker_size` (computing in `f64`) returns 1000. -/
theorem C5_counterexample :
    parse_docker_size "1.001kB" = 1000 ∧
    parseDecimalQ "1.001" = some ⟨1001, 1000⟩ ∧
    ffloor (fmul ⟨1001, 1000⟩ (fOfInt 1000)) = 1001 ∧
    (1000 : Nat) ≠ 1001 :=
  ⟨by decide, by decide, by decide, by decide⟩

/-- C5 (amended): `parse_docker_size` maps trimmed `""`/`"0B"` to 0 and a
`u64`-parsable string to its value; otherwise it splits at the first
alphabetic character and multiplies in IEEE-754 double precision before
truncating, which equals `floor(num × multiplier)` only when the double
computation is exact — all the S3 examples hold, but `"1.001kB"` yields
1000, not `floor(1.001 × 1000) = 1001`. -/
theorem C5_parse_docker_size :
    (∀ s : String, (strTrim s = "" ∨ strTrim s = "0B") →
       parse_docker_size s = 0) ∧
    (∀ (s : String) (n : Nat), ¬ (strTrim s = "" ∨ strTrim s = "0B") →
       parseU64 (strTrim s) = some n → parse_docker_size s = n) ∧
    (parse_docker_size "0B" = 0 ∧ parse_docker_size "1024" = 1024 ∧
     parse_docker_size "77.84MB" = 77840000 ∧
     parse_docker_size "1.5GB" = 1500000000 ∧
     parse_docker_size "" = 0 ∧ parse_docker_size "5XB" = 5 ∧
     parse_docker_size "1.001kB" = 1000) := by
  refine ⟨?_, ?_, by decide, by decide, by decide, by decide, by decide,
    by decide, by decide⟩
  · intro s h
    simp only [parse_docker_size]
    rw [if_pos h]
  · intro s n h hu
    simp only [parse_docker_size]
    rw [if_neg h, hu]

/-- C5 witness: the two guarded branches applied at concrete inputs. -/
theorem C5_witness :
    ((strTrim " 0B " = "" ∨ strTrim " 0B " = "0B") ∧
      parse_docker_size " 0B " = 0) ∧
    (¬ (strTrim "42" = "" ∨ strTrim "42" = "0B") ∧
      parseU64 (strTrim "42") = some 42 ∧ parse_docker_size "42" = 42) :=
  ⟨⟨by decide, C5_parse_docker_size.1 " 0B " (by decide)⟩,
   ⟨by decide, by decide, C5_parse_docker_size.2.1 "42" 42 (by decide) (by decide)⟩⟩

/-! ## Claim C6 -/

/-- C6: both layer file-list producers — the archive layer-body parser and
the overlay2 walk-then-sort of `list_files` — return lists sorted by path,
in which a file is a whiteout (with size forced to 0) exactly when its
basename starts with `.wh.`. -/
theorem C6_sorted_whiteouts :
    (∀ entries : List InnerTarEntry,
       List.Sorted entryLe (parse_inner_tar entries) ∧
       ∀ f ∈ parse_inner_tar entries,
         f.is_whiteout = strStartsWith (basenameOf f.path) ".wh." ∧
           (f.is_whiteout = true → f.size = 0)) ∧
    (∀ (st : Overlay2Storage) (layer : LayerInfo) (files : List FileEntry),
       overlay2_list_files st layer = .ok files →
       List.Sorted entryLe files ∧
       ∀ f ∈ files,
         f.is_whiteout = strStartsWith (basenameOf f.path) ".wh." ∧
           (f.is_whiteout = true → f.size = 0)) := by
  constructor
  · intro entries
    refine ⟨sortByPath_sorted _, fun f hf => ?_⟩
    exact collectInnerFiles_whiteout entries f ((sortByPath_perm _).mem_iff.mp hf)
  · intro st layer files h
    unfold overlay2_list_files at h
    cases hc : get_cache_id st layer.digest with
    | error e => simp only [hc] at h; exact (Except.noConfusion h)
    | ok cache_id =>
      simp only [hc] at h
      cases hd : alistGet st.diffDirs cache_id with
      | none => simp only [hd] at h; exact (Except.noConfusion h)
      | some children =>
        simp only [hd] at h
        injection h with h
        subst h
        refine ⟨sortByPath_sorted _, fun f hf => ?_⟩
        exact walkForest_whiteout [] children f
          ((sortByPath_perm _).mem_iff.mp hf)

/-- Layer-tar entries exercising S5 (`etc/.wh.hostname` of stored size
4096), a plain file, a directory and an unreadable entry. -/
def c6entries : List InnerTarEntry :=
  [ ⟨true, false, ["etc", "hostname"], 5⟩,
    ⟨true, false, ["etc", ".wh.hostname"], 4096⟩,
    ⟨true, true, ["etc"], 0⟩,
    ⟨false, false, ["skipped"], 7⟩ ]

def c6storage : Overlay2Storage :=
  { repositories := none, imageConfigs := [], layerSizes := [],
    cacheIds := [("cafe", " cid\n")],
    diffDirs :=
      [("cid",
        FsForest.cons (FsNode.file ".wh.x" 9)
          (FsForest.cons (FsNode.dir "d" (FsForest.cons (FsNode.file "a" 3) FsForest.nil))
            FsForest.nil))] }

def c6layer : LayerInfo :=
  { digest := "sha256:cafe", created_by := none, size := 0, files := [] }

/-- C6 witness: both parts instantiated on concrete inputs. -/
theorem C6_witness :
    (List.Sorted entryLe (parse_inner_tar c6entries) ∧
      ∀ f ∈ parse_inner_tar c6entries,
        f.is_whiteout = strStartsWith (basenameOf f.path) ".wh." ∧
          (f.is_whiteout = true → f.size = 0)) ∧
    (overlay2_list_files c6storage c6layer =
        .ok [⟨[".wh.x"], 0, true⟩, ⟨["d", "a"], 3, false⟩] ∧
      (List.Sorted entryLe
          [(⟨[".wh.x"], 0, true⟩ : FileEntry), ⟨["d", "a"], 3, false⟩] ∧
        ∀ f ∈ [(⟨[".wh.x"], 0, true⟩ : FileEntry), ⟨["d", "a"], 3, false⟩],
          f.is_whiteout = strStartsWith (basenameOf f.path) ".wh." ∧
            (f.is_whiteout = true → f.size = 0))) :=
  ⟨C6_sorted_whiteouts.1 c6entries,
   ⟨rfl, C6_sorted_whiteouts.2 c6storage c6layer _ rfl⟩⟩

/-! ## Claim C10 -/

theorem buildDockerLayers_keys_nodup (meLayers : List String)
    (cbl : List (Option String)) :
    ∀ (ds : List String) (i : Nat) (lf facc : List (String × List FileEntry)),
      (alistKeys facc).Nodup →
      (alistKeys ((buildDockerLayers meLayers cbl i lf facc ds).2.2)).Nodup := by
  intro ds
  induction ds with
  | nil => intro i lf facc h; exact h
  | cons d rest ih =>
    intro i lf facc h
    rw [buildDockerLayers]
    exact ih (i + 1) (takeLayerFiles meLayers i lf).2
      (alistInsert facc d (takeLayerFiles meLayers i lf).1)
      (alistKeys_insert_nodup facc d _ h)

theorem ociPass2_keys_nodup (dmap : List (String × String)) :
    ∀ (es : List TarEntry) (fbd fbd' : List (String × List FileEntry)),
      (alistKeys fbd).Nodup → ociPass2 dmap es fbd = .ok fbd' →
      (alistKeys fbd').Nodup := by
  intro es
  induction es with
  | nil =>
    intro fbd fbd' hn h
    rw [ociPass2] at h
    injection h with h
    exact h ▸ hn
  | cons e rest ih =>
    intro fbd fbd' hn h
    rw [ociPass2] at h
    cases hsp : stripPrefixOpt e.path "blobs/sha256/" with
    | none => simp only [hsp] at h; exact ih fbd fbd' hn h
    | some hash =>
      simp only [hsp] at h
      cases hdm : alistGet dmap ("sha256:" ++ hash) with
      | none => simp only [hdm] at h; exact ih fbd fbd' hn h
      | some diff_id =>
        simp only [hdm] at h
        by_cases hmem : (alistGet fbd diff_id).isNone
        · rw [if_pos hmem] at h
          cases hdl : decodeLayer e.blob with
          | none => simp only [hdl] at h; exact (Except.noConfusion h)
          | some files =>
            simp only [hdl] at h
            exact ih _ fbd' (alistKeys_insert_nodup fbd diff_id files hn) h
        · rw [if_neg hmem] at h
          exact ih fbd fbd' hn h

theorem ociSmallLoop_keys_nodup (dmap : List (String × String)) :
    ∀ (sb : List (String × Blob)) (fbd fbd' : List (String × List FileEntry)),
      (alistKeys fbd).Nodup → ociSmallLoop dmap sb fbd = .ok fbd' →
      (alistKeys fbd').Nodup := by
  intro sb
  induction sb with
  | nil =>
    intro fbd fbd' hn h
    rw [ociSmallLoop] at h
    injection h with h
    exact h ▸ hn
  | cons p rest ih =>
    intro fbd fbd' hn h
    obtain ⟨digest, data⟩ := p
    rw [ociSmallLoop] at h
    cases hdm : alistGet dmap digest with
    | none => simp only [hdm] at h; exact ih fbd fbd' hn h
    | some diff_id =>
      simp only [hdm] at h
      by_cases hmem : (alistGet fbd diff_id).isNone
      · rw [if_pos hmem] at h
        cases hdl : decodeLayer data with
        | none => simp only [hdl] at h; exact (Except.noConfusion h)
        | some files =>
          simp only [hdl] at h
          exact ih _ fbd' (alistKeys_insert_nodup fbd diff_id files hn) h
      · rw [if_neg hmem] at h
        exact ih fbd fbd' hn h

/-- Every successful `parse_archive` returns a files map with pairwise
distinct digest keys (it is built by `HashMap::insert` alone). -/
theorem parse_archive_files_keys_nodup {entries : List TarEntry}
    {n t : String} {hint : Option (List String)} {r : ArchiveResult}
    (h : parse_archive entries n t hint = .ok r) :
    (alistKeys r.files).Nodup := by
  unfold parse_archive at h
  cases hd : detect_format entries with
  | error e => simp only [hd] at h; exact (Except.noConfusion h)
  | ok fmt =>
    simp only [hd] at h
    cases fmt with
    | docker =>
      obtain ⟨scan, mes, me, layer_files, resv, _, _, _, _, _, hr⟩ :=
        parse_docker_format_inv h
      subst hr
      exact buildDockerLayers_keys_nodup me.layers resv.2.2 resv.2.1 0
        layer_files [] List.nodup_nil
    | oci =>
      obtain ⟨manifest, config, fbd, _, hfb, hr⟩ := parse_oci_format_inv h
      subst hr
      unfold ociFiles at hfb
      cases hp2 : ociPass2 (digestToDiffId manifest.layers config.rootfs.diff_ids)
          entries [] with
      | error e => simp only [hp2] at hfb; exact (Except.noConfusion hfb)
      | ok fbd1 =>
        simp only [hp2] at hfb
        exact ociSmallLoop_keys_nodup _ _ fbd1 fbd
          (ociPass2_keys_nodup _ entries [] fbd1 List.nodup_nil hp2) hfb

/-- C10: the archive-backed inspectors' `list_files` consumes the cache:
it errors before `inspect`; after a successful `inspect` (which populates
the cache with pairwise-distinct digest keys) the first call for a digest
removes and returns its file list and a second call for the same digest
errors with "Layer ... not found". -/
theorem C10_cache_consume :
    ((cache_list_files FileCache.initial "sha256:x").1 =
      .error .inspectNotCalled) ∧
    (∀ (cache : FileCache) (d : String) (files : List FileEntry)
       (rest : List (String × List FileEntry)),
       cache.cache_populated = true →
       (alistKeys cache.cached_files).Nodup →
       alistRemove cache.cached_files d = some (files, rest) →
       (cache_list_files cache d).1 = .ok files ∧
       (cache_list_files (cache_list_files cache d).2 d).1 =
         .error (.layerNotFound d)) ∧
    (∀ (stem : String) (entries : List TarEntry) (info : ImageInfo)
       (cache : FileCache),
       docker_archive_inspect stem entries = .ok (info, cache) →
       cache.cache_populated = true ∧ (alistKeys cache.cached_files).Nodup) := by
  refine ⟨rfl, ?_, ?_⟩
  · intro cache d files rest hpop hnd hrem
    have hfirst : cache_list_files cache d =
        (.ok files, { cache with cached_files := rest }) := by
      unfold cache_list_files
      rw [hpop]
      simp only [Bool.true_eq_false, if_false, hrem]
    refine ⟨by rw [hfirst], ?_⟩
    rw [hfirst]
    have hnone : alistGet rest d = none :=
      alistRemove_get_none_of_nodup cache.cached_files d files rest hnd hrem
    unfold cache_list_files
    simp only [hpop, Bool.true_eq_false, if_false,
      (alistRemove_eq_none_iff rest d).mpr hnone]
  · intro stem entries info cache h
    unfold docker_archive_inspect at h
    cases hp : parse_archive entries stem "" none with
    | error e => simp only [hp] at h; exact (Except.noConfusion h)
    | ok r =>
      simp only [hp] at h
      injection h with h
      have h2 : cache = { cached_files := r.files, cache_populated := true } :=
        (congrArg Prod.snd h).symm
      rw [h2]
      exact ⟨rfl, parse_archive_files_keys_nodup hp⟩

/-- C10 witness: the lifecycle on the concrete S6 archive — `inspect`
populates the cache, the first `list_files "X"` returns, the second
errors. -/
theorem C10_witness :
    (docker_archive_inspect "img" c3demo = .ok (c3info, c3cache) ∧
      c3cache.cache_populated = true ∧ (alistKeys c3cache.cached_files).Nodup) ∧
    (c3cache.cache_populated = true ∧
      alistRemove c3cache.cached_files "X" = some ([], [("Y", [])]) ∧
      (cache_list_files c3cache "X").1 = .ok [] ∧
      (cache_list_files (cache_list_files c3cache "X").2 "X").1 =
        .error (.layerNotFound "X")) :=
  ⟨⟨rfl, C10_cache_consume.2.2 "img" c3demo c3info c3cache rfl⟩,
   ⟨rfl, rfl,
    C10_cache_consume.2.1 c3cache "X" [] [("Y", [])] rfl (by decide) rfl⟩⟩

/-! ## Claim C3 -/

theorem nonEmptyCreatedBy_join (hs : List HistoryEntry) (i : Nat) :
    Option.join ((nonEmptyCreatedBy hs)[i]?) =
      ((hs.filter (fun e => e.empty_layer = false))[i]?).bind
        (fun e => e.created_by) := by
  rw [nonEmptyCreatedBy, List.getElem?_map]
  cases h : (hs.filter (fun e => e.empty_layer = false))[i]? <;> simp [h]

/-- C3: in all three config-consuming paths — the Docker-layout archive
parser, the OCI-layout archive parser and the overlay2 inspector — layer
`i`'s `created_by` comes from the `i`-th history entry whose `empty_layer`
flag is false, in config order, and the layer count equals the diff-ID
count. -/
theorem C3_history_alignment :
    (∀ (entries : List TarEntry) (name tag : String) (r : ArchiveResult),
       parse_docker_format entries name tag none = .ok r →
       ∃ scan mes me config,
         scanDocker { layer_files := [], manifest_data := none, configs := [] }
             entries = .ok scan ∧
         scan.manifest_data = some mes ∧ mes.head? = some me ∧
         alistGet scan.configs me.config = some (.imageConfig config) ∧
         r.info.layers.length = config.rootfs.diff_ids.length ∧
         ∀ i, i < r.info.layers.length →
           (r.info.layers[i]?).map (fun l => l.created_by) =
             some (((config.history.filter (fun e => e.empty_layer = false))[i]?).bind
               (fun e => e.created_by))) ∧
    (∀ (entries : List TarEntry) (name tag : String) (r : ArchiveResult),
       parse_oci_format entries name tag = .ok r →
       ∃ manifest config,
         ociResolve (scanOci { index_data := none, small_blobs := [] } entries) =
           .ok (manifest, config) ∧
         r.info.layers.length = config.rootfs.diff_ids.length ∧
         ∀ i, i < r.info.layers.length →
           (r.info.layers[i]?).map (fun l => l.created_by) =
             some (((config.history.filter (fun e => e.empty_layer = false))[i]?).bind
               (fun e => e.created_by))) ∧
    (∀ (st : Overlay2Storage) (image : String) (r : ImageInfo),
       overlay2_inspect st image = .ok r →
       ∃ name tag digest_hex config,
         resolve_image st image = .ok (name, tag, digest_hex) ∧
         read_image_config st digest_hex = .ok config ∧
         r.layers.length = config.rootfs.diff_ids.length ∧
         ∀ i, i < r.layers.length →
           (r.layers[i]?).map (fun l => l.created_by) =
             some (((config.history.filter (fun e => e.empty_layer = false))[i]?).bind
               (fun e => e.created_by))) := by
  refine ⟨?_, ?_, ?_⟩
  · intro entries name tag r h
    obtain ⟨scan, mes, me, layer_files, resv, hscan, hmd, hhd, hlf, hres, hr⟩ :=
      parse_docker_format_inv h
    unfold dockerResolved at hres
    cases hcfg : alistGet scan.configs me.config with
    | none => simp only [hcfg] at hres; exact (Except.noConfusion hres)
    | some blob =>
      simp only [hcfg] at hres
      cases blob with
      | imageConfig config =>
        simp only at hres
        injection hres with hres
        refine ⟨scan, mes, me, config, hscan, hmd, hhd, hcfg, ?_, ?_⟩
        · subst hr
          simp only [dockerFinish, ← hres]
          exact buildDockerLayers_length me.layers _ _ 0 layer_files []
        · intro i hi
          subst hr
          simp only [dockerFinish, ← hres] at hi ⊢
          have hcb := buildDockerLayers_created_by me.layers
            (nonEmptyCreatedBy config.history) config.rootfs.diff_ids 0
            layer_files [] i (by
              rw [← buildDockerLayers_length me.layers
                (nonEmptyCreatedBy config.history) config.rootfs.diff_ids 0
                layer_files []]
              exact hi)
          rw [Nat.zero_add] at hcb
          rw [hcb, nonEmptyCreatedBy_join]
      | dockerManifest es => simp at hres
      | ociIndex x => simp at hres
      | ociManifest x => simp at hres
      | layerTar x => simp at hres
      | malformed => simp at hres
  · intro entries name tag r h
    obtain ⟨manifest, config, fbd, hres, hfb, hr⟩ := parse_oci_format_inv h
    refine ⟨manifest, config, hres, ?_, ?_⟩
    · subst hr
      simp only [ociFinish]
      exact buildOciLayers_length manifest.layers _ _ 0
    · intro i hi
      subst hr
      simp only [ociFinish] at hi ⊢
      have hcb := buildOciLayers_created_by manifest.layers
        (nonEmptyCreatedBy config.history) config.rootfs.diff_ids 0 i (by
          rw [← buildOciLayers_length manifest.layers
            (nonEmptyCreatedBy config.history) config.rootfs.diff_ids 0]
          exact hi)
      rw [Nat.zero_add] at hcb
      rw [hcb, nonEmptyCreatedBy_join]
  · intro st image r h
    obtain ⟨name, tag, digest_hex, config, hres, hcfg, hr⟩ := overlay2_inspect_inv h
    refine ⟨name, tag, digest_hex, config, hres, hcfg, ?_, ?_⟩
    · subst hr
      simp only
      rw [overlay2BuildLayers_length st _ _ 0, compute_chain_ids_length]
    · intro i hi
      subst hr
      simp only at hi ⊢
      have hlen : i < (compute_chain_ids config.rootfs.diff_ids).length := by
        rw [← overlay2BuildLayers_length st (nonEmptyCreatedBy config.history)
          (compute_chain_ids config.rootfs.diff_ids) 0]
        exact hi
      have hcb := overlay2BuildLayers_created_by st
        (nonEmptyCreatedBy config.history)
        (compute_chain_ids config.rootfs.diff_ids) 0 i hlen
      rw [Nat.zero_add] at hcb
      rw [hcb, nonEmptyCreatedBy_join]

/-- C3 witness: the S6 scenario — history `[A (empty), B, C (empty), D]`
with `diff_ids = [X, Y]` parses with `layers[0].created_by = B` and
`layers[1].created_by = D`. -/
theorem C3_witness :
    (parse_docker_format c3demo "img" "" none = .ok c3result) ∧
    (∃ scan mes me config,
       scanDocker { layer_files := [], manifest_data := none, configs := [] }
           c3demo = .ok scan ∧
       scan.manifest_data = some mes ∧ mes.head? = some me ∧
       alistGet scan.configs me.config = some (.imageConfig config) ∧
       c3result.info.layers.length = config.rootfs.diff_ids.length ∧
       ∀ i, i < c3result.info.layers.length →
         (c3result.info.layers[i]?).map (fun l => l.created_by) =
           some (((config.history.filter (fun e => e.empty_layer = false))[i]?).bind
             (fun e => e.created_by))) ∧
    (c3result.info.layers[0]?).map (fun l => l.created_by) =
      some (some "B-cmd") ∧
    (c3result.info.layers[1]?).map (fun l => l.created_by) =
      some (some "D-cmd") :=
  ⟨rfl, C3_history_alignment.1 c3demo "img" "" c3result rfl, rfl, rfl⟩

/-! ## Claim C7 -/

/-- C7: in the Docker-layout layer build, an index whose manifest tar path
is absent from the (post-second-pass) layer map yields layer size 0 with
an empty file list keyed under its diff ID; and once the scan, manifest,
second pass and diff-ID resolution succeed, `parse_docker_format` always
returns `ok` — a missing layer tar path is never a failure. -/
theorem C7_missing_layer_not_fatal :
    (∀ (meLayers : List String) (cbl : List (Option String)) (ds : List String)
       (lf : List (String × List FileEntry)) (j : Nat) (d : String),
       ds[j]? = some d → ds.Nodup →
       (meLayers[j]? = none ∨
         ∃ tp, meLayers[j]? = some tp ∧ alistGet lf tp = none) →
       (((buildDockerLayers meLayers cbl 0 lf [] ds).1)[j]?).map
           (fun l => (l.size, l.files)) = some (0, []) ∧
       alistGet ((buildDockerLayers meLayers cbl 0 lf [] ds).2.2) d = some []) ∧
    (∀ (entries : List TarEntry) (name tag : String)
       (hint : Option (List String)) (scan : DockerScan)
       (mes : List DockerManifestEntry) (me : DockerManifestEntry)
       (layer_files : List (String × List FileEntry))
       (resv : Option String × List String × List (Option String)),
       scanDocker { layer_files := [], manifest_data := none, configs := [] }
           entries = .ok scan →
       scan.manifest_data = some mes → mes.head? = some me →
       dockerLfRes entries scan me = .ok layer_files →
       dockerResolved scan me hint = .ok resv →
       ∃ r, parse_docker_format entries name tag hint = .ok r) := by
  constructor
  · intro meLayers cbl ds lf j d hd hnd hmiss
    have hj : j < ds.length := by
      by_contra hge
      rw [List.getElem?_eq_none (Nat.le_of_not_lt hge)] at hd
      cases hd
    have hmiss0 : meLayers[0 + j]? = none ∨
        ∃ tp, meLayers[0 + j]? = some tp ∧ alistGet lf tp = none := by
      rw [Nat.zero_add]; exact hmiss
    exact ⟨buildDockerLayers_missing meLayers cbl ds 0 lf [] j hj hmiss0,
      buildDockerLayers_files_missing meLayers cbl ds 0 lf [] j d hd hnd hmiss0⟩
  · intro entries name tag hint scan mes me layer_files resv hscan hmd hhd hlf hres
    exact ⟨dockerFinish name tag me layer_files resv,
      parse_docker_format_ok_of_stages hscan hmd hhd hlf hres⟩

/-- A Docker manifest referencing a layer tar path that the archive does
not contain. -/
def c7me : DockerManifestEntry :=
  { config := "c.json", layers := ["missing/layer.tar"], repo_tags := [] }

def c7demo : List TarEntry :=
  [ ⟨"manifest.json", 0, .dockerManifest [c7me]⟩,
    ⟨"c.json", 0, .imageConfig c3config⟩ ]

def c7scan : DockerScan :=
  { layer_files := [], manifest_data := some [c7me],
    configs := [("c.json", .imageConfig c3config)] }

/-- C7 witness: the missing-path build at a concrete input, and the parse
succeeding on the archive whose manifest references an absent layer tar. -/
theorem C7_witness :
    (((["X"] : List String)[0]? = some "X") ∧ (["X"] : List String).Nodup ∧
      ((((buildDockerLayers ["missing/layer.tar"] [] 0 [] [] ["X"]).1)[0]?).map
          (fun l => (l.size, l.files)) = some (0, []) ∧
        alistGet ((buildDockerLayers ["missing/layer.tar"] [] 0 [] [] ["X"]).2.2)
          "X" = some [])) ∧
    (scanDocker { layer_files := [], manifest_data := none, configs := [] }
        c7demo = .ok c7scan ∧
      ∃ r, parse_docker_format c7demo "img" "" none = .ok r) :=
  ⟨⟨rfl, by decide,
    C7_missing_layer_not_fatal.1 ["missing/layer.tar"] [] ["X"] [] 0 "X" rfl
      (by decide) (Or.inr ⟨"missing/layer.tar", rfl, rfl⟩)⟩,
   ⟨rfl,
    C7_missing_layer_not_fatal.2 c7demo "img" "" none c7scan [c7me] c7me []
      (none, ["X", "Y"], [some "B-cmd", some "D-cmd"]) rfl rfl rfl rfl rfl⟩⟩

/-! ## Claim C8 -/

/-- C8: in every backend — Docker-layout archive, OCI-layout archive,
overlay2 and the runtime-CLI metadata path — the returned `total_size`
equals the sum of the per-layer sizes. -/
theorem C8_total_size :
    (∀ (entries : List TarEntry) (name tag : String)
       (hint : Option (List String)) (r : ArchiveResult),
       parse_docker_format entries name tag hint = .ok r →
       r.info.total_size = sumLayerSizes r.info.layers) ∧
    (∀ (entries : List TarEntry) (name tag : String) (r : ArchiveResult),
       parse_oci_format entries name tag = .ok r →
       r.info.total_size = sumLayerSizes r.info.layers) ∧
    (∀ (st : Overlay2Storage) (image : String) (r : ImageInfo),
       overlay2_inspect st image = .ok r →
       r.total_size = sumLayerSizes r.layers) ∧
    (∀ (image : String) (di : DockerInspect) (hist : List HistoryLine),
       (inspectViaCliInfo image di hist).total_size =
         sumLayerSizes (inspectViaCliInfo image di hist).layers) := by
  refine ⟨?_, ?_, ?_, ?_⟩
  · intro entries name tag hint r h
    obtain ⟨scan, mes, me, layer_files, resv, _, _, _, _, _, hr⟩ :=
      parse_docker_format_inv h
    subst hr
    simp only [dockerFinish]
    exact buildDockerLayers_total me.layers resv.2.2 resv.2.1 0 layer_files []
  · intro entries name tag r h
    obtain ⟨manifest, config, fbd, _, _, hr⟩ := parse_oci_format_inv h
    subst hr
    simp only [ociFinish]
    exact buildOciLayers_total manifest.layers _ config.rootfs.diff_ids 0
  · intro st image r h
    obtain ⟨name, tag, digest_hex, config, _, _, hr⟩ := overlay2_inspect_inv h
    subst hr
    simp only
    exact overlay2BuildLayers_total st _ _ 0
  · intro image di hist
    simp only [inspectViaCliInfo]
    exact buildCliLayers_total _ di.rootfs_layers 0

/-- C8 witness: the invariant instantiated on the concrete S6 archive and
on a concrete CLI metadata input. -/
theorem C8_witness :
    (parse_docker_format c3demo "img" "" none = .ok c3result ∧
      c3result.info.total_size = sumLayerSizes c3result.info.layers) ∧
    ((inspectViaCliInfo "nginx:1.25"
        { architecture := some "amd64", size := 120,
          rootfs_layers := ["sha256:l1", "sha256:l2"] }
        [ { created_by := some "RUN b", size := "20" },
          { created_by := some "RUN a", size := "100" } ]).total_size =
      sumLayerSizes (inspectViaCliInfo "nginx:1.25"
        { architecture := some "amd64", size := 120,
          rootfs_layers := ["sha256:l1", "sha256:l2"] }
        [ { created_by := some "RUN b", size := "20" },
          { created_by := some "RUN a", size := "100" } ]).layers) :=
  ⟨⟨rfl, C8_total_size.1 c3demo "img" "" none c3result rfl⟩,
   C8_total_size.2.2.2 "nginx:1.25" _ _⟩

/-! ## Claim C9 -/

/-- C9 counterexample: an archive inspected by path (file stem `"img"`, a
non-empty name hint) comes back with `tag = Some ""` — the empty string,
not `"latest"`. -/
theorem C9_counterexample :
    docker_archive_inspect "img" c3demo = .ok (c3info, c3cache) ∧
    c3info.tag = some "" ∧ (some "" : Option String) ≠ some "latest" :=
  ⟨rfl, rfl, by decide⟩

/-- C9 (amended): for an archive inspected by path with a non-empty name
hint the returned tag is `Some ""` (the empty tag hint passed through, in
both layouts), not `"latest"`; the `"latest"` default arises only in
`parse_image_ref`, when a reference has no colon or its last colon is a
registry port. -/
theorem C9_tag_empty :
    (∀ (stem : String) (entries : List TarEntry) (res : ImageInfo × FileCache),
       docker_archive_inspect stem entries = .ok res → stem ≠ "" →
       res.1.tag = some "") ∧
    (∀ image : String, rsplitOnce image ':' = none →
       parse_image_ref image = (image, "latest")) ∧
    (∀ (image n t : String), rsplitOnce image ':' = some (n, t) →
       t.data.contains '/' = true →
       parse_image_ref image = (image, "latest")) := by
  refine ⟨?_, ?_, ?_⟩
  · intro stem entries res h hne
    unfold docker_archive_inspect at h
    cases hp : parse_archive entries stem "" none with
    | error e => simp only [hp] at h; exact (Except.noConfusion h)
    | ok r =>
      simp only [hp] at h
      injection h with h
      have hres : res.1 = r.info := by rw [← h]
      unfold parse_archive at hp
      cases hd : detect_format entries with
      | error e => simp only [hd] at hp; exact (Except.noConfusion hp)
      | ok fmt =>
        simp only [hd] at hp
        cases fmt with
        | docker =>
          obtain ⟨scan, mes, me, lf, resv, _, _, _, _, _, hr⟩ :=
            parse_docker_format_inv hp
          rw [hres, hr]
          simp only [dockerFinish]
          unfold dockerNameTag
          rw [if_neg hne]
        | oci =>
          obtain ⟨manifest, config, fbd, _, _, hr⟩ := parse_oci_format_inv hp
          rw [hres, hr]
          rfl
  · intro image h
    unfold parse_image_ref
    simp only [h]
  · intro image n t h hc
    unfold parse_image_ref
    simp only [h]
    rw [if_pos hc]

/-- C9 witness: the empty tag on the concrete S6 archive, and the
`"latest"` default for a colon-free reference. -/
theorem C9_witness :
    (docker_archive_inspect "img" c3demo = .ok (c3info, c3cache) ∧
      ("img" : String) ≠ "" ∧ (c3info, c3cache).1.tag = some "") ∧
    (rsplitOnce "nginx" ':' = none ∧
      parse_image_ref "nginx" = ("nginx", "latest")) :=
  ⟨⟨rfl, by decide, C9_tag_empty.1 "img" c3demo (c3info, c3cache) rfl (by decide)⟩,
   ⟨rfl, C9_tag_empty.2.1 "nginx" rfl⟩⟩

end Peel
